import Mathlib

/-!
# Verification of the multi-language function/call extractor

Shallow embedding of the heuristic call-graph extractor (`parseCode` and the
eleven per-dialect parsers) of the function-visualizer repository.  Source text
is modelled as `List Char`; the JavaScript regular expressions used by the
extractor are modelled by a small backtracking matcher (`RE` / `reMatch`)
whose candidate order follows the JavaScript engine (leftmost match, greedy
quantifiers first, alternatives in written order).
-/

set_option maxRecDepth 10000

namespace FnViz

/-- Source text, modelled as a list of characters. -/
abbrev Str := List Char

/-- JavaScript `\w` character class: ASCII letters, digits and underscore. -/
def isWordChar (c : Char) : Bool := c.isAlphanum || c == '_'

/-- JavaScript `\s` character class (the whitespace characters that occur in
practice: space, tab, newline, carriage return, vertical tab, form feed). -/
def isSpaceChar (c : Char) : Bool :=
  c == ' ' || c == '\t' || c == '\n' || c == '\r' ||
  c == Char.ofNat 0x0b || c == Char.ofNat 0x0c

/-- JavaScript line terminators (what `.` refuses to match). -/
def isLineTerm (c : Char) : Bool :=
  c == '\n' || c == '\r' || c == Char.ofNat 0x2028 || c == Char.ofNat 0x2029

/-- Number of newline characters in a buffer. -/
def countNL (s : Str) : Nat := s.countP (· == '\n')

/-- JavaScript `String.prototype.trim`. -/
def jsTrim (s : Str) : Str :=
  ((s.dropWhile isSpaceChar).reverse.dropWhile isSpaceChar).reverse

/-- JavaScript `String.prototype.split` with a single-character separator
(`code.split("\n")`, `params.split(",")`, …): splitting the empty string
yields `[""]`, separators at the ends yield empty fields. -/
def splitOn (sep : Char) : Str → List Str
  | [] => [[]]
  | c :: rest =>
    if c = sep then [] :: splitOn sep rest
    else
      match splitOn sep rest with
      | [] => [[c]]
      | h :: t => (c :: h) :: t

/-- Helper for `splitWsRuns`: accumulates the current token (reversed). -/
def splitWsRunsGo (tok : Str) : Str → List Str
  | [] => [tok.reverse]
  | c :: rest =>
    if isSpaceChar c then tok.reverse :: splitWsRunsGo [] (rest.dropWhile isSpaceChar)
    else splitWsRunsGo (c :: tok) rest
termination_by s => s.length
decreasing_by
  all_goals simp only [List.length_cons]
  · exact Nat.lt_succ_of_le (List.dropWhile_sublist _).length_le
  · exact Nat.lt_succ_self _

/-- JavaScript `String.prototype.split(/\s+/)`: split on maximal whitespace
runs (a leading or trailing run contributes an empty field). -/
def splitWsRuns (s : Str) : List Str := splitWsRunsGo [] s

/-- `Array.prototype.pop() || ""` on a split result. -/
def lastToken (l : List Str) : Str := l.getLastD []

/-- Drop text up to and including the first occurrence of `close`; `none`
when `close` does not occur. -/
def dropThrough (close : Str) : Str → Option Str
  | [] => none
  | c :: rest =>
    if close.isPrefixOf (c :: rest) then some ((c :: rest).drop close.length)
    else dropThrough close rest

/-- One traversal of `s.replace(/opn[\s\S]*?close/g, "")` (fuel-driven; the
fuel `s.length` is enough because every step consumes at least one
character).  An opener with no later closer matches nothing and the text is
kept, exactly as the lazy JavaScript regex behaves. -/
def stripBlockAux (opn close : Str) : Nat → Str → Str
  | 0, s => s
  | _ + 1, [] => []
  | fuel + 1, c :: rest =>
    if opn.isPrefixOf (c :: rest) then
      match dropThrough close ((c :: rest).drop opn.length) with
      | some suffix => stripBlockAux opn close fuel suffix
      | none => c :: rest
    else c :: stripBlockAux opn close fuel rest

/-- `s.replace(/opn[\s\S]*?close/g, "")` — block-comment / docstring
removal.  The characters between the delimiters (newlines included) are
deleted. -/
def stripBlock (opn close : Str) (s : Str) : Str :=
  stripBlockAux opn close s.length s

/-- One traversal of `s.replace(/marker.*/g, "")`: from every occurrence of
`marker` the text is removed up to (excluding) the next line terminator. -/
def stripLineAux (marker : Str) : Nat → Str → Str
  | 0, s => s
  | _ + 1, [] => []
  | fuel + 1, c :: rest =>
    if marker.isPrefixOf (c :: rest) then
      stripLineAux marker fuel
        (((c :: rest).drop marker.length).dropWhile (fun ch => !isLineTerm ch))
    else c :: stripLineAux marker fuel rest

/-- `s.replace(/marker.*/g, "")` — single-line comment removal. -/
def stripLine (marker : Str) (s : Str) : Str :=
  stripLineAux marker s.length s

/-- The comment stripping performed by `parseJavaScript` (and the other
C-like dialects): block comments first, then `//` comments. -/
def stripJsComments (s : Str) : Str :=
  stripLine ['/', '/'] (stripBlock ['/', '*'] ['*', '/'] s)

/-- The comment stripping performed by `parsePython`: `#` comments, then
`'''…'''` docstrings, then `"""…"""` docstrings. -/
def stripPyComments (s : Str) : Str :=
  stripBlock ['\"', '\"', '\"'] ['\"', '\"', '\"']
    (stripBlock ['\'', '\'', '\''] ['\'', '\'', '\'']
      (stripLine ['#'] s))

/-- The comment stripping performed by `parseR` and `parseRuby`. -/
def stripHashComments (s : Str) : Str := stripLine ['#'] s

/-- The comment stripping performed by `parsePhp`: block comments, `//`,
then `#`. -/
def stripPhpComments (s : Str) : Str :=
  stripLine ['#'] (stripLine ['/', '/'] (stripBlock ['/', '*'] ['*', '/'] s))

/-! ## A small model of the JavaScript regular expressions used by the parser

Every regular expression appearing in the source is transcribed into the
`RE` syntax below.  `reMatch` enumerates the possible matches at a fixed
start position in JavaScript backtracking order: alternatives in written
order, greedy quantifiers longest-first, lazy quantifiers shortest-first.
All quantified subexpressions in the source consume at least one character
per iteration, so class-quantifiers and the fuelled `starAlt` cover them
exactly. -/

inductive RE where
  /-- a literal string -/
  | lit : Str → RE
  /-- a single-character class -/
  | cls : (Char → Bool) → RE
  | seq : RE → RE → RE
  | alt : RE → RE → RE
  /-- greedy `(?:r)?` -/
  | opt : RE → RE
  /-- greedy `[c]*` over a character class -/
  | starG : (Char → Bool) → RE
  /-- lazy `[c]*?` over a character class -/
  | starL : (Char → Bool) → RE
  /-- greedy `(?:lit₁|…|litₙ|[c])*` (used for Java's modifier prefix) -/
  | starAlt : List Str → (Char → Bool) → RE
  /-- numbered capture group -/
  | grp : Nat → RE → RE

/-- Captured groups: group index paired with captured text. -/
abbrev Caps := List (Nat × Str)

/-- Remainders of a class star in lazy order (consume nothing first). -/
def starRemsLazy (p : Char → Bool) : Str → List Str
  | [] => [[]]
  | c :: rest => (c :: rest) :: (if p c then starRemsLazy p rest else [])

/-- Remainders of `(?:lit₁|…|litₙ|[c])*` in greedy order (“iterate more”
first, alternatives in written order).  Each iteration consumes at least one
character, so fuel `s.length` is exact. -/
def starAltRems (lits : List Str) (p : Char → Bool) : Nat → Str → List Str
  | 0, s => [s]
  | fuel + 1, s =>
    let step : List Str :=
      (lits.filterMap fun l =>
        if l ≠ [] ∧ l.isPrefixOf s then some (s.drop l.length) else none) ++
      (match s with
       | [] => []
       | c :: r => if p c then [r] else [])
    (step.flatMap fun r => starAltRems lits p fuel r) ++ [s]

/-- All matches of `r` at the start of `s`, as pairs (remaining suffix,
captures), in JavaScript backtracking preference order. -/
def reMatch : RE → Str → List (Str × Caps)
  | .lit l, s => if l.isPrefixOf s then [(s.drop l.length, [])] else []
  | .cls p, s =>
    match s with
    | [] => []
    | c :: r => if p c then [(r, [])] else []
  | .seq a b, s =>
    (reMatch a s).flatMap fun rc =>
      (reMatch b rc.1).map fun rc2 => (rc2.1, rc.2 ++ rc2.2)
  | .alt a b, s => reMatch a s ++ reMatch b s
  | .opt a, s => reMatch a s ++ [(s, [])]
  | .starG p, s => (starRemsLazy p s).reverse.map fun r => (r, [])
  | .starL p, s => (starRemsLazy p s).map fun r => (r, [])
  | .starAlt lits p, s => (starAltRems lits p s.length s).map fun r => (r, [])
  | .grp n a, s =>
    (reMatch a s).map fun rc => (rc.1, (n, s.take (s.length - rc.1.length)) :: rc.2)

/-- Look up capture group `n`; `undefined` and the empty capture both give
`""` (they are equally falsy where the source inspects `match[n]`). -/
def capOr (caps : Caps) (n : Nat) : Str :=
  ((caps.find? fun pr => pr.1 == n).map Prod.snd).getD []

/-- Word/non-word status of an optional character (`none` = text edge). -/
def optWord : Option Char → Bool
  | none => false
  | some c => isWordChar c

/-- `\b` between a previous character and the upcoming text. -/
def boundaryOk (prev : Option Char) (next : Str) : Bool :=
  optWord prev != optWord next.head?

/-- The exec loop of a global regex: all matches (match index, captures of
the preferred match), scanning left to right and continuing after each
match (`lastIndex` handling; a zero-width match advances by one).  When
`needB` is set the regex starts with `\b`, checked against the previous
character. -/
def execFrom (needB : Bool) (r : RE) : Nat → Nat → Option Char → Str → List (Nat × Caps)
  | 0, _, _, _ => []
  | fuel + 1, i, prev, suf =>
    let bOk : Bool := !needB || boundaryOk prev suf
    match (if bOk then reMatch r suf else []) with
    | (rest, caps) :: _ =>
      let len := suf.length - rest.length
      (i, caps) ::
        (if len = 0 then
          match suf with
          | [] => []
          | c :: t => execFrom needB r fuel (i + 1) (some c) t
        else
          execFrom needB r fuel (i + len) ((suf.take len).getLast?) rest)
    | [] =>
      match suf with
      | [] => []
      | c :: t => execFrom needB r fuel (i + 1) (some c) t

/-- `while ((match = regex.exec(s)) !== null)` for a `g`-flagged regex. -/
def execAll (needB : Bool) (r : RE) (s : Str) : List (Nat × Caps) :=
  execFrom needB r (s.length + 1) 0 none s

/-- `regex.test(line)`: does `r` match anywhere in the text? -/
def reTestAux (needB : Bool) (r : RE) : Option Char → Str → Bool
  | prev, [] => (!needB || boundaryOk prev []) && !(reMatch r []).isEmpty
  | prev, c :: rest =>
    ((!needB || boundaryOk prev (c :: rest)) && !(reMatch r (c :: rest)).isEmpty) ||
      reTestAux needB r (some c) rest

/-- `regex.test(line)` from the start of the line. -/
def reTest (needB : Bool) (r : RE) (line : Str) : Bool :=
  reTestAux needB r none line

/-- After the callee name, `\s*\(` (or `\s*\(?` for Ruby, which always
succeeds). -/
def parenAfter (req : Bool) (t : Str) : Bool :=
  !req || (t.dropWhile isSpaceChar).head? == some '('

/-- `new RegExp(`\b${fnName}\s*\(`).test(line)` — scanning the raw line for
a word-boundary occurrence of the callee name followed by an opening
parenthesis (`req = false` drops the parenthesis requirement, as in the
Ruby parser's `\b${fnName}\s*\(?`). -/
def callTestAux (name : Str) (req : Bool) : Option Char → Str → Bool
  | _, [] => false
  | prev, c :: rest =>
    (boundaryOk prev (c :: rest) && name.isPrefixOf (c :: rest) &&
      parenAfter req ((c :: rest).drop name.length)) ||
    callTestAux name req (some c) rest

/-- The dynamically built call regex, tested against a raw source line. -/
def callTest (name : Str) (req : Bool) (line : Str) : Bool :=
  callTestAux name req none line

/-! ## Data model -/

/-- `FunctionData`: a discovered entity (function / method / arrow / class).
The `type` field holds the source's literal kind tag. -/
structure FunctionData where
  name : Str
  lineNumber : Nat
  params : List Str
  type : String
deriving DecidableEq, Repr

/-- `CallData`: a call edge record (`from`/`to` renamed, `from` being a Lean
keyword). -/
structure CallData where
  fromName : Str
  toName : Str
  lineNumber : Nat
  context : Str
deriving DecidableEq, Repr

/-- `CallSiteNode`: one call site with its synthetic id. -/
structure CallSiteNode where
  id : Str
  callerName : Str
  calleeName : Str
  lineNumber : Nat
  context : Str
deriving DecidableEq, Repr

/-- `ParsedCode`: the triple returned by every parse. -/
structure ParsedCode where
  functions : List FunctionData
  calls : List CallData
  callSites : List CallSiteNode
deriving DecidableEq, Repr

/-! ## The concrete regular expressions of the source -/

/-- `\s+` -/
def ws1 : RE := .seq (.cls isSpaceChar) (.starG isSpaceChar)

/-- `\s*` -/
def ws0 : RE := .starG isSpaceChar

/-- `\w+` (not captured) -/
def wplus : RE := .seq (.cls isWordChar) (.starG isWordChar)

/-- `(\w+)` captured as group `n` -/
def wgrp (n : Nat) : RE := .grp n (.seq (.cls isWordChar) (.starG isWordChar))

/-- `\(([^)]*)\)` with the parameter text captured as group 2 -/
def paramsGrp : RE := .seq (.lit ['(']) (.seq (.grp 2 (.starG (· != ')'))) (.lit [')']))

/-- Alternation of literals in written order, ending in `tail`. -/
def litAlts (ls : List String) (tail : RE) : RE :=
  ls.foldr (fun kw r => .alt (.lit kw.data) r) tail

/-- JS/PHP `function\s+(\w+)\s*\(([^)]*)\)` -/
def jsFuncRE : RE := .seq (.lit "function".data) (.seq ws1 (.seq (wgrp 1) (.seq ws0 paramsGrp)))

/-- JS `(?:const|let|var)\s+(\w+)\s*=\s*(?:async\s*)?\(([^)]*)\)\s*=>` -/
def jsArrowRE : RE :=
  .seq (litAlts ["const", "let"] (.lit "var".data))
    (.seq ws1 (.seq (wgrp 1) (.seq ws0 (.seq (.lit ['='])
      (.seq ws0 (.seq (.opt (.seq (.lit "async".data) ws0))
        (.seq paramsGrp (.seq ws0 (.lit "=>".data)))))))))

/-- JS `(?:async\s+)?(\w+)\s*\(([^)]*)\)\s*{` -/
def jsMethodRE : RE :=
  .seq (.opt (.seq (.lit "async".data) ws1))
    (.seq (wgrp 1) (.seq ws0 (.seq paramsGrp (.seq ws0 (.lit [Char.ofNat 0x7b])))))

/-- `class\s+(\w+)` -/
def classNameRE : RE := .seq (.lit "class".data) (.seq ws1 (wgrp 1))

/-- `struct\s+(\w+)` -/
def structNameRE : RE := .seq (.lit "struct".data) (.seq ws1 (wgrp 1))

/-- `namespace\s+(\w+)` -/
def namespaceNameRE : RE := .seq (.lit "namespace".data) (.seq ws1 (wgrp 1))

/-- `trait\s+(\w+)` -/
def traitNameRE : RE := .seq (.lit "trait".data) (.seq ws1 (wgrp 1))

/-- `module\s+(\w+)` -/
def moduleNameRE : RE := .seq (.lit "module".data) (.seq ws1 (wgrp 1))

/-- Python `def\s+(\w+)\s*\(([^)]*)\)` -/
def pyFuncRE : RE := .seq (.lit "def".data) (.seq ws1 (.seq (wgrp 1) (.seq ws0 paramsGrp)))

/-- Java `[\w<>[\]]` class -/
def javaTypeChar (c : Char) : Bool :=
  isWordChar c || c == '<' || c == '>' || c == '[' || c == ']'

/-- Java `(?:public|private|protected|static|\s)+[\w<>[\]]+\s+(\w+)\s*\(([^)]*)\)` -/
def javaMethodRE : RE :=
  .seq (.seq (litAlts ["public", "private", "protected", "static"] (.cls isSpaceChar))
             (.starAlt (["public", "private", "protected", "static"].map String.data) isSpaceChar))
    (.seq (.seq (.cls javaTypeChar) (.starG javaTypeChar))
      (.seq ws1 (.seq (wgrp 1) (.seq ws0 paramsGrp))))

/-- C `\b(?:void|int|char|float|double|long|short|unsigned|signed|struct\s+\w+|\w+)\s+(\w+)\s*\(([^)]*)\)\s*{`
(the leading `\b` is handled by the exec loop). -/
def cFuncRE : RE :=
  .seq (litAlts ["void", "int", "char", "float", "double", "long", "short", "unsigned", "signed"]
         (.alt (.seq (.lit "struct".data) (.seq ws1 wplus)) wplus))
    (.seq ws1 (.seq (wgrp 1) (.seq ws0 (.seq paramsGrp (.seq ws0 (.lit [Char.ofNat 0x7b]))))))

/-- C++ `[\w:]` class -/
def cppTypeChar (c : Char) : Bool := isWordChar c || c == ':'

/-- C++ `\b(?:void|int|char|float|double|long|short|unsigned|signed|bool|auto|string|std::\w+|[\w:]+)\s+(\w+)\s*\(([^)]*)\)\s*(?:const\s*)?{` -/
def cppFuncRE : RE :=
  .seq (litAlts ["void", "int", "char", "float", "double", "long", "short", "unsigned",
                 "signed", "bool", "auto", "string"]
         (.alt (.seq (.lit "std::".data) wplus) (.seq (.cls cppTypeChar) (.starG cppTypeChar))))
    (.seq ws1 (.seq (wgrp 1) (.seq ws0 (.seq paramsGrp
      (.seq ws0 (.seq (.opt (.seq (.lit "const".data) ws0)) (.lit [Char.ofNat 0x7b])))))))

/-- R `(\w+)\s*(?:<-|=)\s*function\s*\(([^)]*)\)` -/
def rFuncRE : RE :=
  .seq (wgrp 1) (.seq ws0 (.seq (.alt (.lit "<-".data) (.lit ['=']))
    (.seq ws0 (.seq (.lit "function".data) (.seq ws0 paramsGrp)))))

/-- Go `func\s+(\w+)\s*\(([^)]*)\)` -/
def goFuncRE : RE := .seq (.lit "func".data) (.seq ws1 (.seq (wgrp 1) (.seq ws0 paramsGrp)))

/-- Go `func\s*\([^)]+\)\s*(\w+)\s*\(([^)]*)\)` -/
def goMethodRE : RE :=
  .seq (.lit "func".data) (.seq ws0 (.seq (.lit ['('])
    (.seq (.seq (.cls (· != ')')) (.starG (· != ')')))
      (.seq (.lit [')']) (.seq ws0 (.seq (wgrp 1) (.seq ws0 paramsGrp)))))))

/-- Go `type\s+(\w+)\s+struct` -/
def goStructRE : RE :=
  .seq (.lit "type".data) (.seq ws1 (.seq (wgrp 1) (.seq ws1 (.lit "struct".data))))

/-- `(?:<[^>]*>)?` -/
def genericOpt : RE := .opt (.seq (.lit ['<']) (.seq (.starG (· != '>')) (.lit ['>'])))

/-- Rust `fn\s+(\w+)\s*(?:<[^>]*>)?\s*\(([^)]*)\)` -/
def rustFuncRE : RE :=
  .seq (.lit "fn".data) (.seq ws1 (.seq (wgrp 1) (.seq ws0 (.seq genericOpt (.seq ws0 paramsGrp)))))

/-- PHP `(?:public|private|protected|static)\s+function\s+(\w+)\s*\(([^)]*)\)` -/
def phpMethodRE : RE :=
  .seq (litAlts ["public", "private", "protected"] (.lit "static".data))
    (.seq ws1 (.seq (.lit "function".data) (.seq ws1 (.seq (wgrp 1) (.seq ws0 paramsGrp)))))

/-- Ruby `def\s+(\w+)(?:\s*\(([^)]*)\))?` -/
def rubyFuncRE : RE :=
  .seq (.lit "def".data) (.seq ws1 (.seq (wgrp 1) (.opt (.seq ws0 paramsGrp))))

/-- Swift `func\s+(\w+)\s*(?:<[^>]*>)?\s*\(([^)]*)\)` -/
def swiftFuncRE : RE :=
  .seq (.lit "func".data) (.seq ws1 (.seq (wgrp 1) (.seq ws0 (.seq genericOpt (.seq ws0 paramsGrp)))))

/-! The regexes used only in `.test(trimmedLine)` position to recognise
declaration-shaped lines. -/

/-- JS `(?:function|def|class|const|let|var)\s+` -/
def jsDefRE1 : RE :=
  .seq (litAlts ["function", "def", "class", "const", "let"] (.lit "var".data)) ws1

/-- JS `(?:async\s+)?\w+\s*\([^)]*\)\s*(?:=>|{)` -/
def jsDefRE2 : RE :=
  .seq (.opt (.seq (.lit "async".data) ws1))
    (.seq wplus (.seq ws0 (.seq (.lit ['(']) (.seq (.starG (· != ')'))
      (.seq (.lit [')']) (.seq ws0 (.alt (.lit "=>".data) (.lit [Char.ofNat 0x7b]))))))))

/-- Java `(?:public|private|protected|static|final|abstract|synchronized)\s` -/
def javaDefRE : RE :=
  .seq (litAlts ["public", "private", "protected", "static", "final", "abstract"]
         (.lit "synchronized".data))
    (.cls isSpaceChar)

/-- C `\b(?:void|int|char|float|double|long|short|unsigned|signed|struct)\s+` -/
def cDefRE : RE :=
  .seq (litAlts ["void", "int", "char", "float", "double", "long", "short", "unsigned"]
         (.alt (.lit "signed".data) (.lit "struct".data)))
    ws1

/-- C++ `\b(?:void|int|char|float|double|bool|class|namespace)\s+` -/
def cppDefRE : RE :=
  .seq (litAlts ["void", "int", "char", "float", "double", "bool", "class"]
         (.lit "namespace".data))
    ws1

/-- R `<-\s*function|=\s*function` -/
def rDefRE : RE :=
  .alt (.seq (.lit "<-".data) (.seq ws0 (.lit "function".data)))
       (.seq (.lit ['=']) (.seq ws0 (.lit "function".data)))

/-- PHP `(?:public|private|protected)\s+function` -/
def phpDefRE : RE :=
  .seq (litAlts ["public", "private"] (.lit "protected".data))
    (.seq ws1 (.lit "function".data))

/-! ## Entity construction -/

/-- `codeWithoutComments.substring(0, match.index).split("\n").length` -/
def lineOfIndex (cw : Str) (i : Nat) : Nat := countNL (cw.take i) + 1

/-- `match[2].split(",").map(cleanup).filter(Boolean)` -/
def paramsOf (cleanup : Str → Str) (raw : Str) : List Str :=
  ((splitOn ',' raw).map cleanup).filter (fun p => !p.isEmpty)

/-- Build a function-like entity from a regex match. -/
def entityOfMatch (cw : Str) (ty : String) (cleanup : Str → Str) (m : Nat × Caps) :
    FunctionData :=
  { name := capOr m.2 1
    lineNumber := lineOfIndex cw m.1
    params := paramsOf cleanup (capOr m.2 2)
    type := ty }

/-- Build a type-definition entity (class / struct / namespace / trait /
module), which the source always pushes with `params: []`. -/
def typeEntityOfMatch (cw : Str) (m : Nat × Caps) : FunctionData :=
  { name := capOr m.2 1
    lineNumber := lineOfIndex cw m.1
    params := []
    type := "class" }

/-- `l[0]` of a JavaScript split result. -/
def headF (l : List Str) : Str := l.headD []

/-- JS/TS: `p.trim()` -/
def trimParam (p : Str) : Str := jsTrim p

/-- Python: `p.trim().split("=")[0].split(":")[0].trim()` -/
def pyParam (p : Str) : Str :=
  jsTrim (headF (splitOn ':' (headF (splitOn '=' (jsTrim p)))))

/-- C/C++/Java: `p.trim().split(/\s+/).pop() || ""` -/
def cParam (p : Str) : Str := lastToken (splitWsRuns (jsTrim p))

/-- Go: `p.trim().split(/\s+/)[0]` -/
def goParam (p : Str) : Str := headF (splitWsRuns (jsTrim p))

/-- Rust: `p.trim().split(":")[0].trim()` -/
def rustParam (p : Str) : Str := jsTrim (headF (splitOn ':' (jsTrim p)))

/-- PHP: `p.trim().replace(/^\$/, "")` -/
def phpParam (p : Str) : Str :=
  match jsTrim p with
  | '$' :: r => r
  | q => q

/-- Ruby: `p.trim().split("=")[0].trim()` -/
def rubyParam (p : Str) : Str := jsTrim (headF (splitOn '=' (jsTrim p)))

/-- Swift: `p.trim().split(":")[0].trim().split(/\s+/).pop() || ""` -/
def swiftParam (p : Str) : Str :=
  lastToken (splitWsRuns (jsTrim (headF (splitOn ':' (jsTrim p)))))

/-- Append entities while skipping any whose `(name, lineNumber)` pair was
already added (`functions.some(f => f.name === name && f.lineNumber === lineNumber)`). -/
def addDeduped (base : List FunctionData) (items : List FunctionData) : List FunctionData :=
  items.foldl
    (fun acc e =>
      if acc.any fun f => f.name == e.name && f.lineNumber == e.lineNumber then acc
      else acc ++ [e])
    base

/-! ## The shared call-site scan -/

/-- The per-dialect configuration of the call-site scan: the comment-only
line check, the declaration-shaped line check (both applied to the trimmed
line), and whether the call regex requires an opening parenthesis. -/
structure ScanCfg where
  isCommentLine : Str → Bool
  isDefLine : Str → Bool
  reqParen : Bool

/-- The mutable scan state of one parse: the call list, the call-site list
and the call-site id counter. -/
structure ScanState where
  calls : List CallData
  callSites : List CallSiteNode
  counter : Nat
deriving DecidableEq, Repr

/-- `` `call_${n}` `` -/
def callId (n : Nat) : Str := ("call_" ++ toString n).data

/-- The caller-attribution loop body: the source iterates
`for (let i = functions.length - 1; i >= 0; i--)`, so the list passed here
is the reversed entity list. -/
def findCallerLoop (lineNumber : Nat) (fnName : Str) : List FunctionData → Str
  | [] => "global".data
  | f :: rest =>
    if f.lineNumber < lineNumber && f.name != fnName then f.name
    else findCallerLoop lineNumber fnName rest

/-- Caller attribution: nearest preceding entity in discovery order. -/
def findCaller (functions : List FunctionData) (lineNumber : Nat) (fnName : Str) : Str :=
  findCallerLoop lineNumber fnName functions.reverse

/-- The body of `functionNames.forEach(fnName => …)` for one line. -/
def processName (cfg : ScanCfg) (functions : List FunctionData) (lineNumber : Nat)
    (trimmedLine line : Str) (st : ScanState) (fnName : Str) : ScanState :=
  if callTest fnName cfg.reqParen line then
    if cfg.isDefLine trimmedLine then st
    else
      let caller := findCaller functions lineNumber fnName
      if st.calls.any fun c =>
          c.fromName == caller && c.toName == fnName && c.lineNumber == lineNumber then
        st
      else
        let newCall : CallData :=
          ⟨caller, fnName, lineNumber, trimmedLine.take 100⟩
        let newSite : CallSiteNode :=
          ⟨callId st.counter, caller, fnName, lineNumber, trimmedLine.take 50⟩
        ⟨st.calls ++ [newCall], st.callSites ++ [newSite], st.counter + 1⟩
  else st

/-- The body of `lines.forEach((line, index) => …)`. -/
def scanLine (cfg : ScanCfg) (functions : List FunctionData) (names : List Str)
    (st : ScanState) (index : Nat) (line : Str) : ScanState :=
  let lineNumber := index + 1
  let trimmedLine := jsTrim line
  if cfg.isCommentLine trimmedLine then st
  else names.foldl (processName cfg functions lineNumber trimmedLine line) st

/-- `lines.forEach` with the running index made explicit. -/
def scanLinesFrom (cfg : ScanCfg) (functions : List FunctionData) (names : List Str) :
    Nat → List Str → ScanState → ScanState
  | _, [], st => st
  | index, line :: rest, st =>
    scanLinesFrom cfg functions names (index + 1) rest
      (scanLine cfg functions names st index line)

/-- The whole call-site discovery pass shared by all dialects. -/
def scanCalls (cfg : ScanCfg) (functions : List FunctionData) (lines : List Str) :
    ScanState :=
  scanLinesFrom cfg functions (functions.map (·.name)) 0 lines ⟨[], [], 0⟩

/-- `trimmedLine.startsWith(pre)` -/
def startsWith (pre : String) (s : Str) : Bool := pre.data.isPrefixOf s

/-! ## The per-dialect scan configurations -/

/-- JavaScript / TypeScript scan configuration. -/
def jsScanCfg : ScanCfg where
  isCommentLine t := startsWith "//" t || startsWith "/*" t || startsWith "*" t
  isDefLine t := reTest false jsDefRE1 t || reTest false jsDefRE2 t
  reqParen := true

/-- Python scan configuration. -/
def pyScanCfg : ScanCfg where
  isCommentLine t :=
    startsWith "#" t || startsWith "\x22\x22\x22" t || startsWith "\x27\x27\x27" t
  isDefLine t := startsWith "def " t || startsWith "class " t || startsWith "@" t
  reqParen := true

/-- Java scan configuration. -/
def javaScanCfg : ScanCfg where
  isCommentLine t := startsWith "//" t || startsWith "/*" t || startsWith "*" t
  isDefLine t := reTest false javaDefRE t || startsWith "class " t || startsWith "@" t
  reqParen := true

/-- C scan configuration. -/
def cScanCfg : ScanCfg where
  isCommentLine t := startsWith "//" t || startsWith "/*" t || startsWith "*" t
  isDefLine t := reTest true cDefRE t
  reqParen := true

/-- C++ scan configuration. -/
def cppScanCfg : ScanCfg where
  isCommentLine t := startsWith "//" t || startsWith "/*" t || startsWith "*" t
  isDefLine t :=
    reTest true cppDefRE t || startsWith "class " t || startsWith "namespace " t
  reqParen := true

/-- R scan configuration. -/
def rScanCfg : ScanCfg where
  isCommentLine t := startsWith "#" t
  isDefLine t := reTest false rDefRE t
  reqParen := true

/-- Go scan configuration. -/
def goScanCfg : ScanCfg where
  isCommentLine t := startsWith "//" t || startsWith "/*" t
  isDefLine t := startsWith "func " t || startsWith "type " t
  reqParen := true

/-- Rust scan configuration. -/
def rustScanCfg : ScanCfg where
  isCommentLine t := startsWith "//" t || startsWith "/*" t
  isDefLine t := startsWith "fn " t || startsWith "struct " t || startsWith "trait " t
  reqParen := true

/-- PHP scan configuration. -/
def phpScanCfg : ScanCfg where
  isCommentLine t := startsWith "//" t || startsWith "/*" t || startsWith "#" t
  isDefLine t :=
    startsWith "function " t || startsWith "class " t || reTest false phpDefRE t
  reqParen := true

/-- Ruby scan configuration — the only dialect whose call regex makes the
parenthesis optional (`\b${fnName}\s*\(?`). -/
def rubyScanCfg : ScanCfg where
  isCommentLine t := startsWith "#" t
  isDefLine t := startsWith "def " t || startsWith "class " t || startsWith "module " t
  reqParen := false

/-- Swift scan configuration. -/
def swiftScanCfg : ScanCfg where
  isCommentLine t := startsWith "//" t || startsWith "/*" t
  isDefLine t := startsWith "func " t || startsWith "class " t || startsWith "struct " t
  reqParen := true

/-! ## The eleven dialect parsers -/

/-- Assemble a parse result: run the shared call-site scan over the
discovered entities and package the three lists. -/
def runScan (cfg : ScanCfg) (functions : List FunctionData) (lines : List Str) :
    ParsedCode :=
  let st := scanCalls cfg functions lines
  ⟨functions, st.calls, st.callSites⟩

/-- `parseJavaScript` (also used for TypeScript). -/
def parseJavaScript (code : Str) (lines : List Str) : ParsedCode :=
  let cw := stripJsComments code
  let funcs := (execAll false jsFuncRE cw).map (entityOfMatch cw "function" trimParam)
  let arrows := (execAll false jsArrowRE cw).map (entityOfMatch cw "arrow" trimParam)
  let methods :=
    ((execAll false jsMethodRE cw).map (entityOfMatch cw "method" trimParam)).filter
      fun e => !(["if", "while", "for", "switch", "catch"].map String.data).contains e.name
  let withMethods := addDeduped (funcs ++ arrows) methods
  let functions := withMethods ++ (execAll false classNameRE cw).map (typeEntityOfMatch cw)
  runScan jsScanCfg functions lines

/-- `parsePython` -/
def parsePython (code : Str) (lines : List Str) : ParsedCode :=
  let cw := stripPyComments code
  let funcs := (execAll false pyFuncRE cw).map (entityOfMatch cw "function" pyParam)
  let functions := funcs ++ (execAll false classNameRE cw).map (typeEntityOfMatch cw)
  runScan pyScanCfg functions lines

/-- `parseJava` -/
def parseJava (code : Str) (lines : List Str) : ParsedCode :=
  let cw := stripJsComments code
  let methods :=
    ((execAll false javaMethodRE cw).map (entityOfMatch cw "method" cParam)).filter
      fun e =>
        !(["if", "while", "for", "switch", "catch", "return"].map String.data).contains e.name
  let functions := methods ++ (execAll false classNameRE cw).map (typeEntityOfMatch cw)
  runScan javaScanCfg functions lines

/-- `parseC` -/
def parseC (code : Str) (lines : List Str) : ParsedCode :=
  let cw := stripJsComments code
  let funcs :=
    ((execAll true cFuncRE cw).map (entityOfMatch cw "function" cParam)).filter
      fun e => !(["if", "while", "for", "switch", "return"].map String.data).contains e.name
  let functions := addDeduped funcs ((execAll false structNameRE cw).map (typeEntityOfMatch cw))
  runScan cScanCfg functions lines

/-- `parseCpp` -/
def parseCpp (code : Str) (lines : List Str) : ParsedCode :=
  let cw := stripJsComments code
  let funcs :=
    ((execAll true cppFuncRE cw).map (entityOfMatch cw "function" cParam)).filter
      fun e =>
        !(["if", "while", "for", "switch", "return", "catch"].map String.data).contains e.name
  let functions :=
    funcs ++ (execAll false classNameRE cw).map (typeEntityOfMatch cw) ++
      (execAll false namespaceNameRE cw).map (typeEntityOfMatch cw)
  runScan cppScanCfg functions lines

/-- `parseR` -/
def parseR (code : Str) (lines : List Str) : ParsedCode :=
  let cw := stripHashComments code
  let functions := (execAll false rFuncRE cw).map (entityOfMatch cw "function" rubyParam)
  runScan rScanCfg functions lines

/-- `parseGo` -/
def parseGo (code : Str) (lines : List Str) : ParsedCode :=
  let cw := stripJsComments code
  let funcs := (execAll false goFuncRE cw).map (entityOfMatch cw "function" goParam)
  let methods := (execAll false goMethodRE cw).map (entityOfMatch cw "method" goParam)
  let functions := funcs ++ methods ++ (execAll false goStructRE cw).map (typeEntityOfMatch cw)
  runScan goScanCfg functions lines

/-- `parseRust` -/
def parseRust (code : Str) (lines : List Str) : ParsedCode :=
  let cw := stripJsComments code
  let funcs := (execAll false rustFuncRE cw).map (entityOfMatch cw "function" rustParam)
  let functions :=
    funcs ++ (execAll false structNameRE cw).map (typeEntityOfMatch cw) ++
      (execAll false traitNameRE cw).map (typeEntityOfMatch cw)
  runScan rustScanCfg functions lines

/-- `parsePhp` -/
def parsePhp (code : Str) (lines : List Str) : ParsedCode :=
  let cw := stripPhpComments code
  let funcs := (execAll false jsFuncRE cw).map (entityOfMatch cw "function" phpParam)
  let withClasses := funcs ++ (execAll false classNameRE cw).map (typeEntityOfMatch cw)
  let functions :=
    addDeduped withClasses ((execAll false phpMethodRE cw).map (entityOfMatch cw "method" phpParam))
  runScan phpScanCfg functions lines

/-- `parseRuby` -/
def parseRuby (code : Str) (lines : List Str) : ParsedCode :=
  let cw := stripHashComments code
  let funcs := (execAll false rubyFuncRE cw).map (entityOfMatch cw "function" rubyParam)
  let functions :=
    funcs ++ (execAll false classNameRE cw).map (typeEntityOfMatch cw) ++
      (execAll false moduleNameRE cw).map (typeEntityOfMatch cw)
  runScan rubyScanCfg functions lines

/-- `parseSwift` -/
def parseSwift (code : Str) (lines : List Str) : ParsedCode :=
  let cw := stripJsComments code
  let funcs := (execAll false swiftFuncRE cw).map (entityOfMatch cw "function" swiftParam)
  let functions :=
    funcs ++ (execAll false classNameRE cw).map (typeEntityOfMatch cw) ++
      (execAll false structNameRE cw).map (typeEntityOfMatch cw)
  runScan swiftScanCfg functions lines

/-- The twelve supported language tags. -/
def supportedLanguages : List String :=
  ["javascript", "typescript", "python", "java", "c", "cpp", "r", "go", "rust",
   "php", "ruby", "swift"]

/-- `parseCode`: the dispatcher.  Empty / whitespace-only input short-circuits
to the empty result before any dialect extractor runs; an unknown tag falls
through to the empty result. -/
def parseCode (code : Str) (language : String) : ParsedCode :=
  if jsTrim code = [] then ⟨[], [], []⟩
  else
    let lines := splitOn '\n' code
    if language = "javascript" ∨ language = "typescript" then parseJavaScript code lines
    else if language = "python" then parsePython code lines
    else if language = "java" then parseJava code lines
    else if language = "c" then parseC code lines
    else if language = "cpp" then parseCpp code lines
    else if language = "r" then parseR code lines
    else if language = "go" then parseGo code lines
    else if language = "rust" then parseRust code lines
    else if language = "php" then parsePhp code lines
    else if language = "ruby" then parseRuby code lines
    else if language = "swift" then parseSwift code lines
    else ⟨[], [], []⟩

/-! ## Newline accounting for the comment strippers (claim C1) -/

theorem countNL_append (a b : Str) : countNL (a ++ b) = countNL a + countNL b :=
  List.countP_append _ _ _

theorem countNL_sublist {a b : Str} (h : a.Sublist b) : countNL a ≤ countNL b :=
  h.countP_le _

theorem countNL_drop (n : Nat) (s : Str) : countNL (s.drop n) ≤ countNL s :=
  countNL_sublist (List.drop_sublist n s)

theorem countNL_cons (c : Char) (l : Str) :
    countNL (c :: l) = countNL l + (if c == '\n' then 1 else 0) :=
  List.countP_cons _ _ _

/-- Characters dropped by `dropWhile q` are never newlines when `q`
rejects `'\n'`, so the newline count is unchanged. -/
theorem countNL_dropWhile_eq (q : Char → Bool) (hq : q '\n' = false) (t : Str) :
    countNL (t.dropWhile q) = countNL t := by
  induction t with
  | nil => rfl
  | cons c rest ih =>
    by_cases hc : q c = true
    · have hcne : (c == '\n') = false := by
        by_cases hcc : c = '\n'
        · subst hcc; rw [hq] at hc; exact absurd hc (by simp)
        · simp [hcc]
      rw [List.dropWhile_cons, if_pos hc, ih, countNL_cons, hcne]
      simp
    · rw [List.dropWhile_cons, if_neg hc]

theorem dropThrough_countNL {close : Str} {t suffix : Str}
    (h : dropThrough close t = some suffix) : countNL suffix ≤ countNL t := by
  induction t with
  | nil => simp [dropThrough] at h
  | cons c rest ih =>
    rw [dropThrough] at h
    by_cases hp : close.isPrefixOf (c :: rest) = true
    · rw [if_pos hp] at h
      cases h
      exact countNL_drop _ _
    · rw [if_neg hp] at h
      exact le_trans (ih h) (countNL_sublist (List.sublist_cons_self c rest))

theorem stripBlockAux_countNL_le (opn close : Str) :
    ∀ fuel s, countNL (stripBlockAux opn close fuel s) ≤ countNL s := by
  intro fuel
  induction fuel with
  | zero => intro s; simp [stripBlockAux]
  | succ fuel ih =>
    intro s
    match s with
    | [] => simp [stripBlockAux]
    | c :: rest =>
      rw [stripBlockAux]
      by_cases hp : opn.isPrefixOf (c :: rest) = true
      · rw [if_pos hp]
        cases hdt : dropThrough close ((c :: rest).drop opn.length) with
        | none => simp
        | some suffix =>
          exact le_trans (ih suffix)
            (le_trans (dropThrough_countNL hdt) (countNL_drop _ _))
      · rw [if_neg hp, countNL_cons, countNL_cons]
        exact Nat.add_le_add_right (ih rest) _

theorem stripBlock_countNL_le (opn close s : Str) :
    countNL (stripBlock opn close s) ≤ countNL s :=
  stripBlockAux_countNL_le opn close s.length s

theorem stripLineAux_countNL (marker : Str) (hm : countNL marker = 0) :
    ∀ fuel s, countNL (stripLineAux marker fuel s) = countNL s := by
  intro fuel
  induction fuel with
  | zero => intro s; simp [stripLineAux]
  | succ fuel ih =>
    intro s
    match s with
    | [] => simp [stripLineAux]
    | c :: rest =>
      rw [stripLineAux]
      by_cases hp : marker.isPrefixOf (c :: rest) = true
      · rw [if_pos hp]
        rcases Iff.mp List.isPrefixOf_iff_prefix hp with ⟨tail, htail⟩
        rw [ih]
        have hdrop : (c :: rest).drop marker.length = tail := by
          rw [← htail]; exact List.drop_left marker tail
        rw [hdrop]
        rw [countNL_dropWhile_eq _ (by simp [isLineTerm])]
        rw [← htail, countNL_append, hm, Nat.zero_add]
      · rw [if_neg hp, countNL_cons, countNL_cons, ih]

theorem stripLine_countNL (marker : Str) (hm : countNL marker = 0) (s : Str) :
    countNL (stripLine marker s) = countNL s :=
  stripLineAux_countNL marker hm s.length s

/-! ## Invariants of the shared call-site scan -/

/-- The `(from, to, line)` triple of a call record. -/
def callTriple (c : CallData) : Str × Str × Nat := (c.fromName, c.toName, c.lineNumber)

/-- The `(caller, callee, line)` triple of a call site. -/
def siteTriple (cs : CallSiteNode) : Str × Str × Nat :=
  (cs.callerName, cs.calleeName, cs.lineNumber)

/-- The invariant maintained by the call-site scan: the counter tracks the
number of call sites, ids are sequential, calls and call sites carry the
same triples in the same order and without duplicates, every caller was
computed by `findCaller`, and every call site stems from a non-comment,
non-declaration line whose raw text passes the call regex. -/
structure ScanInv (cfg : ScanCfg) (fns : List FunctionData) (lines : List Str)
    (st : ScanState) : Prop where
  counterEq : st.counter = st.callSites.length
  idsEq : st.callSites.map (·.id) = (List.range st.callSites.length).map callId
  triplesEq : st.calls.map callTriple = st.callSites.map siteTriple
  nodupTriples : (st.calls.map callTriple).Nodup
  callerEq : ∀ cs ∈ st.callSites,
    cs.callerName = findCaller fns cs.lineNumber cs.calleeName
  prov : ∀ cs ∈ st.callSites, ∃ j, j < lines.length ∧ cs.lineNumber = j + 1 ∧
    cfg.isCommentLine (jsTrim (lines.getD j [])) = false ∧
    cfg.isDefLine (jsTrim (lines.getD j [])) = false ∧
    callTest cs.calleeName cfg.reqParen (lines.getD j []) = true ∧
    cs.calleeName ∈ fns.map (·.name)

theorem processName_inv {cfg : ScanCfg} {fns : List FunctionData} {lines : List Str}
    {st : ScanState} {index : Nat} {line fnName : Str}
    (inv : ScanInv cfg fns lines st)
    (hj : index < lines.length)
    (hline : lines.getD index [] = line)
    (hcomment : cfg.isCommentLine (jsTrim line) = false)
    (hname : fnName ∈ fns.map (·.name)) :
    ScanInv cfg fns lines (processName cfg fns (index + 1) (jsTrim line) line st fnName) := by
  simp only [processName]
  by_cases hct : callTest fnName cfg.reqParen line = true
  · rw [if_pos hct]
    by_cases hdef : cfg.isDefLine (jsTrim line) = true
    · rw [if_pos hdef]; exact inv
    · rw [if_neg hdef]
      by_cases hdup : (st.calls.any fun c =>
          c.fromName == findCaller fns (index + 1) fnName && c.toName == fnName &&
            c.lineNumber == index + 1) = true
      · rw [if_pos hdup]; exact inv
      · rw [if_neg hdup]
        have hdefF : cfg.isDefLine (jsTrim line) = false := by
          revert hdef; cases cfg.isDefLine (jsTrim line) <;> simp
        refine ⟨?_, ?_, ?_, ?_, ?_, ?_⟩
        · simp [List.length_append, inv.counterEq]
        · rw [List.map_append, inv.idsEq, List.length_append]
          simp only [List.length_singleton, List.range_succ, List.map_append,
            List.map_cons, List.map_nil]
          rw [inv.counterEq]
        · rw [List.map_append, List.map_append, inv.triplesEq]
          rfl
        · rw [List.map_append]
          have hnotmem :
              (findCaller fns (index + 1) fnName, fnName, index + 1) ∉
                st.calls.map callTriple := by
            intro hmem
            rcases List.mem_map.mp hmem with ⟨c, hc, hcEq⟩
            apply hdup
            rw [List.any_eq_true]
            refine ⟨c, hc, ?_⟩
            have h1 : c.fromName = findCaller fns (index + 1) fnName :=
              congrArg (fun t => t.1) hcEq
            have h2 : c.toName = fnName :=
              congrArg (fun t => t.2.1) hcEq
            have h3 : c.lineNumber = index + 1 :=
              congrArg (fun t => t.2.2) hcEq
            simp [h1, h2, h3]
          simp only [List.map_cons, List.map_nil]
          rw [List.nodup_append]
          exact ⟨inv.nodupTriples, List.nodup_singleton _,
            by
              intro t ht ht'
              simp only [List.mem_singleton] at ht'
              subst ht'
              exact hnotmem ht⟩
        · intro cs hcs
          rcases List.mem_append.mp hcs with h | h
          · exact inv.callerEq cs h
          · simp only [List.mem_singleton] at h
            subst h
            rfl
        · intro cs hcs
          rcases List.mem_append.mp hcs with h | h
          · exact inv.prov cs h
          · simp only [List.mem_singleton] at h
            subst h
            exact ⟨index, hj, rfl, by rw [hline]; exact hcomment,
              by rw [hline]; exact hdefF, by rw [hline]; exact hct, hname⟩
  · rw [if_neg hct]; exact inv

theorem foldl_processName_inv {cfg : ScanCfg} {fns : List FunctionData} {lines : List Str}
    {index : Nat} {line : Str}
    (hj : index < lines.length) (hline : lines.getD index [] = line)
    (hcomment : cfg.isCommentLine (jsTrim line) = false) :
    ∀ (names : List Str) (st : ScanState),
      (∀ n ∈ names, n ∈ fns.map (·.name)) → ScanInv cfg fns lines st →
      ScanInv cfg fns lines
        (names.foldl (processName cfg fns (index + 1) (jsTrim line) line) st) := by
  intro names
  induction names with
  | nil => intro st _ inv; exact inv
  | cons n rest ih =>
    intro st hnames inv
    rw [List.foldl_cons]
    exact ih _ (fun m hm => hnames m (List.mem_cons_of_mem _ hm))
      (processName_inv inv hj hline hcomment (hnames n (List.mem_cons_self _ _)))

theorem scanLine_inv {cfg : ScanCfg} {fns : List FunctionData} {lines names : List Str}
    {index : Nat} {line : Str} {st : ScanState}
    (hj : index < lines.length) (hline : lines.getD index [] = line)
    (hnames : ∀ n ∈ names, n ∈ fns.map (·.name))
    (inv : ScanInv cfg fns lines st) :
    ScanInv cfg fns lines (scanLine cfg fns names st index line) := by
  simp only [scanLine]
  by_cases hc : cfg.isCommentLine (jsTrim line) = true
  · rw [if_pos hc]; exact inv
  · rw [if_neg hc]
    have hcf : cfg.isCommentLine (jsTrim line) = false := by
      revert hc; cases cfg.isCommentLine (jsTrim line) <;> simp
    exact foldl_processName_inv hj hline hcf names st hnames inv

/-- `rem` is the portion of `lines` starting at position `index`
(element-wise; `rem` may also be a shorter prefix of that portion). -/
def SegOf (lines : List Str) (index : Nat) (rem : List Str) : Prop :=
  ∀ k, k < rem.length → index + k < lines.length ∧
    lines.getD (index + k) [] = rem.getD k []

theorem segOf_tail {lines : List Str} {index : Nat} {line : Str} {rest : List Str}
    (h : SegOf lines index (line :: rest)) : SegOf lines (index + 1) rest := by
  intro k hk
  have h2 := h (k + 1) (Nat.succ_lt_succ hk)
  rw [show index + (k + 1) = index + 1 + k from by omega] at h2
  rw [List.getD_cons_succ] at h2
  exact h2

theorem segOf_head {lines : List Str} {index : Nat} {line : Str} {rest : List Str}
    (h : SegOf lines index (line :: rest)) :
    index < lines.length ∧ lines.getD index [] = line := by
  have h0 := h 0 (Nat.succ_pos _)
  rw [Nat.add_zero] at h0
  rw [List.getD_cons_zero] at h0
  exact h0

theorem scanLinesFrom_inv {cfg : ScanCfg} {fns : List FunctionData} {lines names : List Str}
    (hnames : ∀ n ∈ names, n ∈ fns.map (·.name)) :
    ∀ (rem : List Str) (index : Nat) (st : ScanState),
      SegOf lines index rem → ScanInv cfg fns lines st →
      ScanInv cfg fns lines (scanLinesFrom cfg fns names index rem st) := by
  intro rem
  induction rem with
  | nil => intro i st _ inv; exact inv
  | cons line rest ih =>
    intro i st hseg inv
    rw [scanLinesFrom]
    exact ih (i + 1) _ (segOf_tail hseg)
      (scanLine_inv (segOf_head hseg).1 (segOf_head hseg).2 hnames inv)

theorem segOf_self (lines : List Str) : SegOf lines 0 lines := by
  intro k hk
  rw [Nat.zero_add]
  exact ⟨hk, rfl⟩

theorem scanCalls_inv (cfg : ScanCfg) (fns : List FunctionData) (lines : List Str) :
    ScanInv cfg fns lines (scanCalls cfg fns lines) := by
  apply scanLinesFrom_inv (fun n hn => hn) lines 0 _ (segOf_self lines)
  exact ⟨rfl, rfl, rfl, List.nodup_nil, fun cs h => absurd h (List.not_mem_nil cs),
    fun cs h => absurd h (List.not_mem_nil cs)⟩

/-- The scan invariant restated on an assembled parse result. -/
structure ParsedInv (cfg : ScanCfg) (lines : List Str) (r : ParsedCode) : Prop where
  idsEq : r.callSites.map (·.id) = (List.range r.callSites.length).map callId
  triplesEq : r.calls.map callTriple = r.callSites.map siteTriple
  nodupTriples : (r.calls.map callTriple).Nodup
  callerEq : ∀ cs ∈ r.callSites,
    cs.callerName = findCaller r.functions cs.lineNumber cs.calleeName
  prov : ∀ cs ∈ r.callSites, ∃ j, j < lines.length ∧ cs.lineNumber = j + 1 ∧
    cfg.isCommentLine (jsTrim (lines.getD j [])) = false ∧
    cfg.isDefLine (jsTrim (lines.getD j [])) = false ∧
    callTest cs.calleeName cfg.reqParen (lines.getD j []) = true ∧
    cs.calleeName ∈ r.functions.map (·.name)

theorem runScan_inv (cfg : ScanCfg) (fns : List FunctionData) (lines : List Str) :
    ParsedInv cfg lines (runScan cfg fns lines) := by
  have h := scanCalls_inv cfg fns lines
  exact ⟨h.idsEq, h.triplesEq, h.nodupTriples, h.callerEq, h.prov⟩

theorem empty_parsedInv (cfg : ScanCfg) (lines : List Str) :
    ParsedInv cfg lines ⟨[], [], []⟩ :=
  ⟨rfl, rfl, List.nodup_nil, fun cs h => absurd h (List.not_mem_nil cs),
    fun cs h => absurd h (List.not_mem_nil cs)⟩

theorem parseJavaScript_inv (code : Str) (lines : List Str) :
    ParsedInv jsScanCfg lines (parseJavaScript code lines) :=
  runScan_inv _ _ _

theorem parsePython_inv (code : Str) (lines : List Str) :
    ParsedInv pyScanCfg lines (parsePython code lines) :=
  runScan_inv _ _ _

theorem parseJava_inv (code : Str) (lines : List Str) :
    ParsedInv javaScanCfg lines (parseJava code lines) :=
  runScan_inv _ _ _

theorem parseC_inv (code : Str) (lines : List Str) :
    ParsedInv cScanCfg lines (parseC code lines) :=
  runScan_inv _ _ _

theorem parseCpp_inv (code : Str) (lines : List Str) :
    ParsedInv cppScanCfg lines (parseCpp code lines) :=
  runScan_inv _ _ _

theorem parseR_inv (code : Str) (lines : List Str) :
    ParsedInv rScanCfg lines (parseR code lines) :=
  runScan_inv _ _ _

theorem parseGo_inv (code : Str) (lines : List Str) :
    ParsedInv goScanCfg lines (parseGo code lines) :=
  runScan_inv _ _ _

theorem parseRust_inv (code : Str) (lines : List Str) :
    ParsedInv rustScanCfg lines (parseRust code lines) :=
  runScan_inv _ _ _

theorem parsePhp_inv (code : Str) (lines : List Str) :
    ParsedInv phpScanCfg lines (parsePhp code lines) :=
  runScan_inv _ _ _

theorem parseRuby_inv (code : Str) (lines : List Str) :
    ParsedInv rubyScanCfg lines (parseRuby code lines) :=
  runScan_inv _ _ _

theorem parseSwift_inv (code : Str) (lines : List Str) :
    ParsedInv swiftScanCfg lines (parseSwift code lines) :=
  runScan_inv _ _ _

/-- Every parse result satisfies the scan invariant for its dialect's
configuration. -/
theorem parseCode_inv (code : Str) (lang : String) :
    ∃ cfg, ParsedInv cfg (splitOn '\n' code) (parseCode code lang) := by
  unfold parseCode
  by_cases h0 : jsTrim code = []
  · rw [if_pos h0]; exact ⟨jsScanCfg, empty_parsedInv _ _⟩
  · rw [if_neg h0]
    by_cases h1 : lang = "javascript" ∨ lang = "typescript"
    · rw [if_pos h1]; exact ⟨_, parseJavaScript_inv _ _⟩
    · rw [if_neg h1]
      by_cases h2 : lang = "python"
      · rw [if_pos h2]; exact ⟨_, parsePython_inv _ _⟩
      · rw [if_neg h2]
        by_cases h3 : lang = "java"
        · rw [if_pos h3]; exact ⟨_, parseJava_inv _ _⟩
        · rw [if_neg h3]
          by_cases h4 : lang = "c"
          · rw [if_pos h4]; exact ⟨_, parseC_inv _ _⟩
          · rw [if_neg h4]
            by_cases h5 : lang = "cpp"
            · rw [if_pos h5]; exact ⟨_, parseCpp_inv _ _⟩
            · rw [if_neg h5]
              by_cases h6 : lang = "r"
              · rw [if_pos h6]; exact ⟨_, parseR_inv _ _⟩
              · rw [if_neg h6]
                by_cases h7 : lang = "go"
                · rw [if_pos h7]; exact ⟨_, parseGo_inv _ _⟩
                · rw [if_neg h7]
                  by_cases h8 : lang = "rust"
                  · rw [if_pos h8]; exact ⟨_, parseRust_inv _ _⟩
                  · rw [if_neg h8]
                    by_cases h9 : lang = "php"
                    · rw [if_pos h9]; exact ⟨_, parsePhp_inv _ _⟩
                    · rw [if_neg h9]
                      by_cases h10 : lang = "ruby"
                      · rw [if_pos h10]; exact ⟨_, parseRuby_inv _ _⟩
                      · rw [if_neg h10]
                        by_cases h11 : lang = "swift"
                        · rw [if_pos h11]; exact ⟨_, parseSwift_inv _ _⟩
                        · rw [if_neg h11]; exact ⟨jsScanCfg, empty_parsedInv _ _⟩

/-! ## Monotonicity of the scan: call sites are only ever appended -/

theorem processName_sites_mono (cfg : ScanCfg) (fns : List FunctionData) (L : Nat)
    (t line : Str) (st : ScanState) (n : Str) :
    ∃ tail, (processName cfg fns L t line st n).callSites = st.callSites ++ tail := by
  simp only [processName]
  by_cases h1 : callTest n cfg.reqParen line = true
  · rw [if_pos h1]
    by_cases h2 : cfg.isDefLine t = true
    · rw [if_pos h2]; exact ⟨[], (List.append_nil _).symm⟩
    · rw [if_neg h2]
      by_cases h3 : (st.calls.any fun c =>
          c.fromName == findCaller fns L n && c.toName == n &&
            c.lineNumber == L) = true
      · rw [if_pos h3]; exact ⟨[], (List.append_nil _).symm⟩
      · rw [if_neg h3]; exact ⟨_, rfl⟩
  · rw [if_neg h1]; exact ⟨[], (List.append_nil _).symm⟩

theorem foldl_processName_sites_mono (cfg : ScanCfg) (fns : List FunctionData) (L : Nat)
    (t line : Str) :
    ∀ (names : List Str) (st : ScanState),
      ∃ tail, (names.foldl (processName cfg fns L t line) st).callSites =
        st.callSites ++ tail := by
  intro names
  induction names with
  | nil => intro st; exact ⟨[], (List.append_nil _).symm⟩
  | cons n rest ih =>
    intro st
    rw [List.foldl_cons]
    rcases processName_sites_mono cfg fns L t line st n with ⟨t1, h1⟩
    rcases ih (processName cfg fns L t line st n) with ⟨t2, h2⟩
    exact ⟨t1 ++ t2, by rw [h2, h1, List.append_assoc]⟩

theorem scanLine_sites_mono (cfg : ScanCfg) (fns : List FunctionData) (names : List Str)
    (st : ScanState) (index : Nat) (line : Str) :
    ∃ tail, (scanLine cfg fns names st index line).callSites = st.callSites ++ tail := by
  simp only [scanLine]
  by_cases hc : cfg.isCommentLine (jsTrim line) = true
  · rw [if_pos hc]; exact ⟨[], (List.append_nil _).symm⟩
  · rw [if_neg hc]; exact foldl_processName_sites_mono cfg fns (index + 1) _ line names st

theorem scanLinesFrom_sites_mono (cfg : ScanCfg) (fns : List FunctionData)
    (names : List Str) :
    ∀ (rem : List Str) (index : Nat) (st : ScanState),
      ∃ tail, (scanLinesFrom cfg fns names index rem st).callSites =
        st.callSites ++ tail := by
  intro rem
  induction rem with
  | nil => intro i st; exact ⟨[], (List.append_nil _).symm⟩
  | cons line rest ih =>
    intro i st
    rw [scanLinesFrom]
    rcases scanLine_sites_mono cfg fns names st i line with ⟨t1, h1⟩
    rcases ih (i + 1) (scanLine cfg fns names st i line) with ⟨t2, h2⟩
    exact ⟨t1 ++ t2, by rw [h2, h1, List.append_assoc]⟩

/-! ## A qualifying line produces a call site (Ruby sufficiency, claim C10) -/

theorem processName_hit {cfg : ScanCfg} {fns : List FunctionData} {st : ScanState}
    {L : Nat} {t line fnName : Str}
    (htriples : st.calls.map callTriple = st.callSites.map siteTriple)
    (hct : callTest fnName cfg.reqParen line = true)
    (hdef : cfg.isDefLine t = false) :
    ∃ cs ∈ (processName cfg fns L t line st fnName).callSites,
      cs.calleeName = fnName ∧ cs.lineNumber = L := by
  simp only [processName]
  rw [if_pos hct, if_neg (by rw [hdef]; exact Bool.false_ne_true)]
  by_cases h3 : (st.calls.any fun c =>
      c.fromName == findCaller fns L fnName && c.toName == fnName &&
        c.lineNumber == L) = true
  · rw [if_pos h3]
    rcases List.any_eq_true.mp h3 with ⟨c, hc, hcond⟩
    simp only [Bool.and_eq_true, beq_iff_eq] at hcond
    have hmem : callTriple c ∈ st.callSites.map siteTriple := by
      rw [← htriples]
      exact List.mem_map_of_mem _ hc
    rcases List.mem_map.mp hmem with ⟨cs, hcs, hEq⟩
    refine ⟨cs, hcs, ?_, ?_⟩
    · have := congrArg (fun p => p.2.1) hEq
      simpa [siteTriple, callTriple, hcond.1.2] using this
    · have := congrArg (fun p => p.2.2) hEq
      simpa [siteTriple, callTriple, hcond.2] using this
  · rw [if_neg h3]
    refine ⟨_, List.mem_append_right _ (List.mem_singleton_self _), rfl, rfl⟩

theorem foldl_processName_hit {cfg : ScanCfg} {fns : List FunctionData} {lines : List Str}
    {index : Nat} {line : Str}
    (hj : index < lines.length) (hline : lines.getD index [] = line)
    (hcomment : cfg.isCommentLine (jsTrim line) = false)
    (hdef : cfg.isDefLine (jsTrim line) = false)
    {fnName : Str} (hct : callTest fnName cfg.reqParen line = true) :
    ∀ (names : List Str) (st : ScanState),
      (∀ n ∈ names, n ∈ fns.map (·.name)) → ScanInv cfg fns lines st →
      fnName ∈ names →
      ∃ cs ∈ (names.foldl (processName cfg fns (index + 1) (jsTrim line) line) st).callSites,
        cs.calleeName = fnName ∧ cs.lineNumber = index + 1 := by
  intro names
  induction names with
  | nil => intro st _ _ h; exact absurd h (List.not_mem_nil _)
  | cons n rest ih =>
    intro st hnames inv hmem
    rw [List.foldl_cons]
    rcases List.mem_cons.mp hmem with heq | hmem'
    · subst heq
      rcases processName_hit inv.triplesEq hct hdef with ⟨cs, hcs, hp⟩
      rcases foldl_processName_sites_mono cfg fns (index + 1) (jsTrim line) line rest
          (processName cfg fns (index + 1) (jsTrim line) line st fnName) with ⟨tail, htail⟩
      exact ⟨cs, by rw [htail]; exact List.mem_append_left _ hcs, hp⟩
    · exact ih _ (fun m hm => hnames m (List.mem_cons_of_mem _ hm))
        (processName_inv inv hj hline hcomment (hnames n (List.mem_cons_self _ _))) hmem'

theorem scanCalls_hit {cfg : ScanCfg} {fns : List FunctionData} {lines : List Str}
    {j : Nat} {fnName : Str}
    (hj : j < lines.length)
    (hcomment : cfg.isCommentLine (jsTrim (lines.getD j [])) = false)
    (hdef : cfg.isDefLine (jsTrim (lines.getD j [])) = false)
    (hct : callTest fnName cfg.reqParen (lines.getD j []) = true)
    (hname : fnName ∈ fns.map (·.name)) :
    ∃ cs ∈ (scanCalls cfg fns lines).callSites,
      cs.calleeName = fnName ∧ cs.lineNumber = j + 1 := by
  classical
  have hsplit : lines = lines.take j ++ lines.getD j [] :: lines.drop (j + 1) := by
    conv_lhs => rw [← List.take_append_drop j lines]
    congr 1
    rw [List.getD_eq_getElem lines [] hj]
    exact List.drop_eq_getElem_cons hj
  have happ : ∀ (l1 l2 : List Str) (idx : Nat) (st : ScanState),
      scanLinesFrom cfg fns (fns.map (·.name)) idx (l1 ++ l2) st =
        scanLinesFrom cfg fns (fns.map (·.name)) (idx + l1.length) l2
          (scanLinesFrom cfg fns (fns.map (·.name)) idx l1 st) := by
    intro l1
    induction l1 with
    | nil => intro l2 idx st; simp [scanLinesFrom]
    | cons a l1 ih =>
      intro l2 idx st
      rw [List.cons_append, scanLinesFrom, scanLinesFrom, ih]
      have harith : idx + (a :: l1).length = idx + 1 + l1.length := by
        simp only [List.length_cons]
        omega
      rw [harith]
  have hlen : (lines.take j).length = j := by
    rw [List.length_take]
    omega
  have hcalls : scanCalls cfg fns lines =
      scanLinesFrom cfg fns (fns.map (·.name)) (j + 1) (lines.drop (j + 1))
        (scanLine cfg fns (fns.map (·.name))
          (scanLinesFrom cfg fns (fns.map (·.name)) 0 (lines.take j) ⟨[], [], 0⟩) j
          (lines.getD j [])) := by
    unfold scanCalls
    conv_lhs => rw [hsplit]
    rw [happ, hlen, Nat.zero_add, scanLinesFrom]
  rw [hcalls]
  -- invariant at the state reached after the first j lines
  have hsegTake : SegOf lines 0 (lines.take j) := by
    intro k hk
    rw [List.length_take] at hk
    have hkj : k < j := lt_of_lt_of_le hk (min_le_left _ _)
    have hklen : k < lines.length := lt_of_lt_of_le hk (min_le_right _ _)
    refine ⟨by simpa using hklen, ?_⟩
    rw [Nat.zero_add, List.getD_eq_getElem lines [] hklen,
      List.getD_eq_getElem _ [] (by rw [List.length_take]; exact hk),
      List.getElem_take]
  have invMid : ScanInv cfg fns lines
      (scanLinesFrom cfg fns (fns.map (·.name)) 0 (lines.take j) ⟨[], [], 0⟩) := by
    apply scanLinesFrom_inv (fun n hn => hn) _ 0 _ hsegTake
    exact ⟨rfl, rfl, rfl, List.nodup_nil, fun cs h => absurd h (List.not_mem_nil cs),
      fun cs h => absurd h (List.not_mem_nil cs)⟩
  -- the scan of line j itself produces (or finds) the call site
  have hhit : ∃ cs ∈ (scanLine cfg fns (fns.map (·.name))
      (scanLinesFrom cfg fns (fns.map (·.name)) 0 (lines.take j) ⟨[], [], 0⟩) j
      (lines.getD j [])).callSites,
      cs.calleeName = fnName ∧ cs.lineNumber = j + 1 := by
    simp only [scanLine]
    rw [if_neg (by rw [hcomment]; exact Bool.false_ne_true)]
    exact foldl_processName_hit hj rfl hcomment hdef hct _ _ (fun n hn => hn) invMid hname
  rcases hhit with ⟨cs, hcs, hp⟩
  rcases scanLinesFrom_sites_mono cfg fns (fns.map (·.name)) (lines.drop (j + 1)) (j + 1)
      (scanLine cfg fns (fns.map (·.name))
        (scanLinesFrom cfg fns (fns.map (·.name)) 0 (lines.take j) ⟨[], [], 0⟩) j
        (lines.getD j [])) with ⟨tail, htail⟩
  exact ⟨cs, by rw [htail]; exact List.mem_append_left _ hcs, hp⟩

/-! ## Characterising the caller-attribution loop (claim C2) -/

theorem findCallerLoop_eq_find? (L : Nat) (n : Str) :
    ∀ l : List FunctionData,
      findCallerLoop L n l =
        (((l.find? fun f => decide (f.lineNumber < L) && f.name != n).map (·.name)).getD
          "global".data) := by
  intro l
  induction l with
  | nil => rfl
  | cons f rest ih =>
    rw [findCallerLoop]
    by_cases h : (decide (f.lineNumber < L) && f.name != n) = true
    · have hf : List.find? (fun f => decide (f.lineNumber < L) && f.name != n)
          (f :: rest) = some f :=
        List.find?_cons_of_pos _ h
      rw [if_pos h, hf]
      rfl
    · have hf : List.find? (fun f => decide (f.lineNumber < L) && f.name != n)
          (f :: rest) =
          List.find? (fun f => decide (f.lineNumber < L) && f.name != n) rest :=
        List.find?_cons_of_neg _ (by simpa using h)
      rw [if_neg h, hf, ih]

theorem find?_reverse_eq_getLast?_filter {α : Type} (p : α → Bool) :
    ∀ l : List α, l.reverse.find? p = (l.filter p).getLast? := by
  intro l
  induction l using List.reverseRecOn with
  | nil => rfl
  | append_singleton l a ih =>
    rw [List.reverse_append, List.filter_append]
    simp only [List.reverse_singleton, List.singleton_append]
    by_cases h : p a = true
    · rw [List.find?_cons_of_pos _ h]
      have hfa : [a].filter p = [a] := by simp [List.filter, h]
      rw [hfa, List.getLast?_concat]
    · rw [List.find?_cons_of_neg _ h]
      have hfa : [a].filter p = [] := by simp [List.filter, h]
      rw [hfa, List.append_nil, ih]

/-- Amended claim C2's formulation of caller attribution: the most recently
appended entity among those whose declaring line precedes the call line and
whose name differs from the callee; `"global"` when none qualifies. -/
def lastPrecedingCaller (fns : List FunctionData) (L : Nat) (callee : Str) : Str :=
  (((fns.filter fun f => decide (f.lineNumber < L) && f.name != callee).getLast?).map
    (·.name)).getD "global".data

theorem findCaller_eq_lastPreceding (fns : List FunctionData) (L : Nat) (callee : Str) :
    findCaller fns L callee = lastPrecedingCaller fns L callee := by
  rw [findCaller, findCallerLoop_eq_find?, lastPrecedingCaller,
    find?_reverse_eq_getLast?_filter]

/-- Claim C2's original formulation: the qualifying entity with the greatest
declaring line. -/
def greatestLineCaller (fns : List FunctionData) (L : Nat) (callee : Str) :
    Option FunctionData :=
  (fns.filter fun f => decide (f.lineNumber < L) && f.name != callee).argmax (·.lineNumber)

/-! ## Whole-word occurrence implies a Ruby call-regex match (claim C10) -/

/-- Does the line contain `name` as a whole word: a word boundary before it
and no word character directly after it? -/
def containsWholeWordAux (name : Str) : Option Char → Str → Bool
  | _, [] => false
  | prev, c :: rest =>
    (boundaryOk prev (c :: rest) && name.isPrefixOf (c :: rest) &&
      !optWord ((c :: rest).drop name.length).head?) ||
    containsWholeWordAux name (some c) rest

/-- Whole-word containment test, from the start of the line. -/
def containsWholeWord (name line : Str) : Bool :=
  containsWholeWordAux name none line

theorem containsWholeWordAux_callTest {name : Str} :
    ∀ (prev : Option Char) (s : Str),
      containsWholeWordAux name prev s = true → callTestAux name false prev s = true := by
  intro prev s
  induction s generalizing prev with
  | nil => intro h; exact absurd h (by simp [containsWholeWordAux])
  | cons c rest ih =>
    intro h
    rw [containsWholeWordAux] at h
    rw [callTestAux]
    simp only [Bool.or_eq_true] at h ⊢
    rcases h with h1 | h1
    · left
      simp only [Bool.and_eq_true] at h1 ⊢
      exact ⟨⟨h1.1.1, h1.1.2⟩, by simp [parenAfter]⟩
    · right
      exact ih _ h1

theorem containsWholeWord_callTest {name line : Str}
    (h : containsWholeWord name line = true) : callTest name false line = true :=
  containsWholeWordAux_callTest none line h

/-! ## The deduplicating type-definition pass (claim C6) -/

/-- Default entity for positional access. -/
def defFnData : FunctionData := ⟨[], 0, [], ""⟩

/-- No type-definition entity shares its `(name, declaringLine)` pair with
any entity that precedes it in the list. -/
def PairDedup (l : List FunctionData) : Prop :=
  ∀ i j, i < j → j < l.length → (l.getD j defFnData).type = "class" →
    ¬((l.getD i defFnData).name = (l.getD j defFnData).name ∧
      (l.getD i defFnData).lineNumber = (l.getD j defFnData).lineNumber)

theorem getD_append_left {α : Type} {l1 l2 : List α} {j : Nat} (h : j < l1.length) (d : α) :
    (l1 ++ l2).getD j d = l1.getD j d := by
  rw [List.getD_eq_getElem _ d (by rw [List.length_append]; omega),
    List.getD_eq_getElem _ d h]
  exact List.getElem_append_left h

theorem getD_append_last {α : Type} {l1 : List α} {e : α} (d : α) :
    (l1 ++ [e]).getD l1.length d = e := by
  rw [List.getD_eq_getElem _ d (by rw [List.length_append, List.length_singleton]; omega)]
  exact List.getElem_concat_length _ _ _ rfl _

theorem addDeduped_pairDedup :
    ∀ (items base : List FunctionData), PairDedup base →
      PairDedup (addDeduped base items) := by
  intro items
  induction items with
  | nil => intro base hb; exact hb
  | cons e rest ih =>
    intro base hb
    have hstep : addDeduped base (e :: rest) =
        addDeduped
          (if base.any fun f => f.name == e.name && f.lineNumber == e.lineNumber then base
           else base ++ [e]) rest := by
      simp only [addDeduped, List.foldl_cons]
    rw [hstep]
    apply ih
    by_cases h : (base.any fun f => f.name == e.name && f.lineNumber == e.lineNumber) = true
    · rw [if_pos h]; exact hb
    · rw [if_neg h]
      intro i j hij hjlen htype
      rw [List.length_append, List.length_singleton] at hjlen
      by_cases hj : j < base.length
      · have hi : i < base.length := lt_trans hij hj
        rw [getD_append_left hj, getD_append_left hi]
        rw [getD_append_left hj] at htype
        exact hb i j hij hj htype
      · have hj' : j = base.length := by omega
        subst hj'
        have hi : i < base.length := hij
        rw [getD_append_left hi, getD_append_last]
        rintro ⟨hn, hl⟩
        apply h
        rw [List.any_eq_true]
        refine ⟨base.getD i defFnData, ?_, ?_⟩
        · rw [List.getD_eq_getElem _ _ hi]
          exact List.getElem_mem _
        · show ((base.getD i defFnData).name == e.name &&
            (base.getD i defFnData).lineNumber == e.lineNumber) = true
          rw [hn, hl]
          simp

/-! ## Reduction equations for the dispatcher -/

theorem parseCode_js (code : Str) (h : jsTrim code ≠ []) :
    parseCode code "javascript" = parseJavaScript code (splitOn '\n' code) := by
  unfold parseCode
  rw [if_neg h, if_pos (Or.inl rfl)]

theorem parseCode_ts (code : Str) (h : jsTrim code ≠ []) :
    parseCode code "typescript" = parseJavaScript code (splitOn '\n' code) := by
  unfold parseCode
  rw [if_neg h, if_pos (Or.inr rfl)]

theorem parseCode_python (code : Str) (h : jsTrim code ≠ []) :
    parseCode code "python" = parsePython code (splitOn '\n' code) := by
  unfold parseCode
  rw [if_neg h, if_neg (by decide), if_pos rfl]

theorem parseCode_java (code : Str) (h : jsTrim code ≠ []) :
    parseCode code "java" = parseJava code (splitOn '\n' code) := by
  unfold parseCode
  rw [if_neg h, if_neg (by decide), if_neg (by decide), if_pos rfl]

theorem parseCode_cpp (code : Str) (h : jsTrim code ≠ []) :
    parseCode code "cpp" = parseCpp code (splitOn '\n' code) := by
  unfold parseCode
  rw [if_neg h, if_neg (by decide), if_neg (by decide), if_neg (by decide),
    if_neg (by decide), if_pos rfl]

theorem parseCode_r (code : Str) (h : jsTrim code ≠ []) :
    parseCode code "r" = parseR code (splitOn '\n' code) := by
  unfold parseCode
  rw [if_neg h, if_neg (by decide), if_neg (by decide), if_neg (by decide),
    if_neg (by decide), if_neg (by decide), if_pos rfl]

theorem parseCode_go (code : Str) (h : jsTrim code ≠ []) :
    parseCode code "go" = parseGo code (splitOn '\n' code) := by
  unfold parseCode
  rw [if_neg h, if_neg (by decide), if_neg (by decide), if_neg (by decide),
    if_neg (by decide), if_neg (by decide), if_neg (by decide), if_pos rfl]

theorem parseCode_rust (code : Str) (h : jsTrim code ≠ []) :
    parseCode code "rust" = parseRust code (splitOn '\n' code) := by
  unfold parseCode
  rw [if_neg h, if_neg (by decide), if_neg (by decide), if_neg (by decide),
    if_neg (by decide), if_neg (by decide), if_neg (by decide), if_neg (by decide),
    if_pos rfl]

theorem parseCode_php (code : Str) (h : jsTrim code ≠ []) :
    parseCode code "php" = parsePhp code (splitOn '\n' code) := by
  unfold parseCode
  rw [if_neg h, if_neg (by decide), if_neg (by decide), if_neg (by decide),
    if_neg (by decide), if_neg (by decide), if_neg (by decide), if_neg (by decide),
    if_neg (by decide), if_pos rfl]

theorem parseCode_swift (code : Str) (h : jsTrim code ≠ []) :
    parseCode code "swift" = parseSwift code (splitOn '\n' code) := by
  unfold parseCode
  rw [if_neg h, if_neg (by decide), if_neg (by decide), if_neg (by decide),
    if_neg (by decide), if_neg (by decide), if_neg (by decide), if_neg (by decide),
    if_neg (by decide), if_neg (by decide), if_neg (by decide), if_pos rfl]

theorem parseCode_c (code : Str) (h : jsTrim code ≠ []) :
    parseCode code "c" = parseC code (splitOn '\n' code) := by
  unfold parseCode
  rw [if_neg h, if_neg (by decide), if_neg (by decide), if_neg (by decide), if_pos rfl]

theorem parseCode_ruby (code : Str) (h : jsTrim code ≠ []) :
    parseCode code "ruby" = parseRuby code (splitOn '\n' code) := by
  unfold parseCode
  rw [if_neg h, if_neg (by decide), if_neg (by decide), if_neg (by decide),
    if_neg (by decide), if_neg (by decide), if_neg (by decide), if_neg (by decide),
    if_neg (by decide), if_neg (by decide), if_pos rfl]

theorem parseCode_empty (code : Str) (lang : String) (h : jsTrim code = []) :
    parseCode code lang = ⟨[], [], []⟩ := by
  unfold parseCode
  rw [if_pos h]

/-- The comment markers each dialect's comment-only line check looks for
(the `trimmedLine.startsWith(…)` tests at the top of every scan loop). -/
def commentMarkers (language : String) : List String :=
  if language = "javascript" ∨ language = "typescript" then ["//", "/*", "*"]
  else if language = "python" then ["#", "\x22\x22\x22", "\x27\x27\x27"]
  else if language = "java" then ["//", "/*", "*"]
  else if language = "c" then ["//", "/*", "*"]
  else if language = "cpp" then ["//", "/*", "*"]
  else if language = "r" then ["#"]
  else if language = "go" then ["//", "/*"]
  else if language = "rust" then ["//", "/*"]
  else if language = "php" then ["//", "/*", "#"]
  else if language = "ruby" then ["#"]
  else if language = "swift" then ["//", "/*"]
  else []

/-- A line on which the dialect's comment-only check fires contributes no
call site: every call site's provenance line passed that check. -/
theorem prov_comment_ne {cfg : ScanCfg} {lines : List Str} {r : ParsedCode}
    (inv : ParsedInv cfg lines r) {i : Nat}
    (hmk : cfg.isCommentLine (jsTrim (lines.getD i [])) = true) :
    ∀ cs ∈ r.callSites, cs.lineNumber ≠ i + 1 := by
  intro cs hcs hline
  rcases inv.prov cs hcs with ⟨j, _, hjl, hcomm, -, -, -⟩
  have hji : j = i := by omega
  subst hji
  rw [hmk] at hcomm
  exact absurd hcomm (by decide)

/-- In a dialect whose call regex requires the parenthesis, every call
site's raw line passes the parenthesised test `\b<name>\s*\(`. -/
theorem prov_paren {cfg : ScanCfg} {lines : List Str} {r : ParsedCode}
    (inv : ParsedInv cfg lines r) (hrq : cfg.reqParen = true) :
    ∀ cs ∈ r.callSites, ∃ j, j < lines.length ∧ cs.lineNumber = j + 1 ∧
      callTest cs.calleeName true (lines.getD j []) = true := by
  intro cs hcs
  rcases inv.prov cs hcs with ⟨j, hj, hjl, -, -, hct, -⟩
  rw [hrq] at hct
  exact ⟨j, hj, hjl, hct⟩

/-! ## Concrete inputs used in counterexamples and witnesses -/

/-- A JavaScript buffer whose block comment spans two lines. -/
def cexBlockComment : Str := "/*\n*/\nfunction f() \x7b\x7d".data

/-- A JavaScript buffer where the entity list order (classes appended last)
differs from declaring-line order. -/
def cexCallerOrder : Str := "class A \x7b\x7d\nfunction f() \x7b\x7d\nfunction t() \x7b\x7d\nt();".data

/-- A JavaScript buffer in which a class shares its `(name, line)` pair with
a function discovered earlier. -/
def cexClassDup : Str := "function A() \x7b\x7d class A \x7b\x7d".data

/-- The spec's JavaScript false-positive guard scenario. -/
def cexGuard : Str := "function foo() \x7b\x7d\n\nfoo();".data

/-- A JavaScript buffer with a comment-only line mentioning a call. -/
def cexCommentLine : Str := "function f() \x7b\x7d\n// f(x)".data

/-- A C buffer with a function followed by a struct. -/
def cexStructDedup : Str := "int f(int x) \x7b\nstruct S \x7b\x7d;\n\x7d".data

/-- A Ruby buffer calling a method without parentheses. -/
def cexRubyCall : Str := "def foo\nend\nfoo".data

/-- The spec's Python scenario (two calls from `main` to `greet`). -/
def cexPyScenario : Str :=
  "def greet(name):\n    return 1\n\ndef main():\n    greet(\"x\")\n    greet(\"y\")".data

/-- Default call site for positional access. -/
def defSite : CallSiteNode := ⟨[], [], [], 0, []⟩

/-! ## The claims -/

/-- C1, counterexample: comment stripping does NOT preserve the newline
count.  On `"/*\n*/\nfunction f() {}"` the stripped buffer has one newline
where the original has two, and the declared function is assigned
`declaringLine = 2` although `function f` sits on line 3 of the original
buffer. -/
theorem C1_counterexample :
    countNL (stripJsComments cexBlockComment) = 1 ∧ countNL cexBlockComment = 2 ∧
    countNL (stripJsComments cexBlockComment) ≠ countNL cexBlockComment ∧
    (parseCode cexBlockComment "javascript").functions.map
      (fun f => (f.name, f.lineNumber)) = [(['f'], 2)] := by
  refine ⟨by decide, by decide, by decide, by decide⟩

/-- C1, amended: single-line comment removal (`//.*` and `#.*`) preserves
the newline count exactly, but block-comment and triple-quoted-docstring
removal deletes the newlines inside the removed region, so the stripped
buffer never has more newlines than the original and may have fewer
(hence `declaringLine` can undercount for declarations following a
multi-line block comment or docstring). -/
theorem C1_amended (s : Str) :
    countNL (stripLine ['/', '/'] s) = countNL s ∧
    countNL (stripLine ['#'] s) = countNL s ∧
    countNL (stripJsComments s) ≤ countNL s ∧
    countNL (stripPyComments s) ≤ countNL s := by
  refine ⟨stripLine_countNL _ (by decide) s, stripLine_countNL _ (by decide) s, ?_, ?_⟩
  · rw [stripJsComments, stripLine_countNL _ (by decide)]
    exact stripBlock_countNL_le _ _ s
  · rw [stripPyComments]
    exact le_trans (stripBlock_countNL_le _ _ _)
      (le_trans (stripBlock_countNL_le _ _ _)
        (le_of_eq (stripLine_countNL _ (by decide) s)))

/-- C2, counterexample: caller attribution scans the discovered entity list
backwards, which is NOT the entity with the greatest declaring line: on
`cexCallerOrder` the call to `t` on line 4 is attributed to the class `A`
(declared on line 1, but appended last), while the qualifying entity with
the greatest declaring line is `f` (line 2). -/
theorem C2_counterexample :
    ((parseCode cexCallerOrder "javascript").callSites.map
      (fun cs => (cs.callerName, cs.calleeName, cs.lineNumber)) = [(['A'], ['t'], 4)]) ∧
    ((greatestLineCaller (parseCode cexCallerOrder "javascript").functions 4
      ['t']).map (·.name) = some ['f']) ∧
    (['A'] : Str) ≠ ['f'] := by
  refine ⟨by decide, by decide, by decide⟩

/-- C2, amended: for every call site of every parse result, `callerName`
is the name of the *most recently appended* entity whose declaring line is
strictly below the call line and whose name differs from the callee
(`"global"` when none exists) — discovery order, not greatest declaring
line. -/
theorem C2_amended (code : Str) (lang : String) :
    ∀ cs ∈ (parseCode code lang).callSites,
      cs.callerName =
        lastPrecedingCaller (parseCode code lang).functions cs.lineNumber cs.calleeName := by
  intro cs hcs
  rcases parseCode_inv code lang with ⟨cfg, inv⟩
  rw [← findCaller_eq_lastPreceding]
  exact inv.callerEq cs hcs

/-- C2, amended, witness at `cexCallerOrder`: the single call site's caller
is computed by the backward scan. -/
theorem C2_amended_witness :
    (⟨"call_0".data, ['A'], ['t'], 4, "t();".data⟩ : CallSiteNode).callerName =
      lastPrecedingCaller (parseCode cexCallerOrder "javascript").functions 4 ['t'] :=
  C2_amended cexCallerOrder "javascript" _ (by decide)

/-- C3: within one parse result no two call records and no two call sites
share the same `(caller, callee, line)` triple. -/
theorem C3_no_duplicate_triples (code : Str) (lang : String) :
    ((parseCode code lang).calls.map callTriple).Nodup ∧
    ((parseCode code lang).callSites.map siteTriple).Nodup := by
  rcases parseCode_inv code lang with ⟨cfg, inv⟩
  refine ⟨inv.nodupTriples, ?_⟩
  rw [← inv.triplesEq]
  exact inv.nodupTriples

/-- C4: the i-th call site of any parse result has id `call_<i>`; ids are
sequential from `call_0`. -/
theorem C4_sequential_ids (code : Str) (lang : String) (i : Nat)
    (h : i < (parseCode code lang).callSites.length) :
    ((parseCode code lang).callSites.getD i defSite).id = callId i := by
  rcases parseCode_inv code lang with ⟨cfg, inv⟩
  have hmapLen : i < ((parseCode code lang).callSites.map (·.id)).length := by
    simpa using h
  have h1 : ((parseCode code lang).callSites.map (·.id)).getD i [] =
      ((parseCode code lang).callSites.getD i defSite).id := by
    rw [List.getD_eq_getElem _ _ hmapLen, List.getD_eq_getElem _ _ h, List.getElem_map]
  have hr : i < ((List.range (parseCode code lang).callSites.length).map callId).length := by
    simpa using h
  have h2 : ((List.range (parseCode code lang).callSites.length).map callId).getD i [] =
      callId i := by
    rw [List.getD_eq_getElem _ _ hr, List.getElem_map, List.getElem_range]
  rw [← h1, inv.idsEq, h2]

/-- C4, witness: in the Python scenario the second call site is `call_1`. -/
theorem C4_sequential_ids_witness :
    ((parseCode cexPyScenario "python").callSites.getD 1 defSite).id = callId 1 :=
  C4_sequential_ids cexPyScenario "python" 1 (by decide)

/-- C5: empty or whitespace-only input yields the all-empty result for every
language tag, and an unsupported language tag yields the all-empty result
for every buffer (a quiet no-op, not an error). -/
theorem C5_empty_and_unsupported :
    (∀ (lang : String) (code : Str), jsTrim code = [] →
      parseCode code lang = ⟨[], [], []⟩) ∧
    (∀ (lang : String) (code : Str), lang ∉ supportedLanguages →
      parseCode code lang = ⟨[], [], []⟩) := by
  constructor
  · intro lang code h
    exact parseCode_empty code lang h
  · intro lang code hmem
    by_cases h0 : jsTrim code = []
    · exact parseCode_empty code lang h0
    · simp only [supportedLanguages, List.mem_cons, List.not_mem_nil, or_false,
        not_or] at hmem
      obtain ⟨h1, h2, h3, h4, h5, h6, h7, h8, h9, h10, h11, h12⟩ := hmem
      unfold parseCode
      rw [if_neg h0, if_neg (by rw [not_or]; exact ⟨h1, h2⟩), if_neg h3, if_neg h4,
        if_neg h5, if_neg h6, if_neg h7, if_neg h8, if_neg h9, if_neg h10, if_neg h11,
        if_neg h12]

/-- C5, witness: the spec's scenario `parse("def x(): pass", "haskell")`
returns all-empty lists. -/
theorem C5_empty_and_unsupported_witness :
    "haskell" ∉ supportedLanguages ∧
    parseCode "def x(): pass".data "haskell" = ⟨[], [], []⟩ :=
  ⟨by decide, C5_empty_and_unsupported.2 "haskell" "def x(): pass".data (by decide)⟩

/-- Entities produced by a function-pass never carry the type tag
`"class"`, so such a list satisfies the pair-dedup property vacuously. -/
theorem pairDedup_of_no_class {base : List FunctionData}
    (hb : ∀ f ∈ base, f.type ≠ "class") : PairDedup base := by
  intro i j _ hj ht
  exfalso
  apply hb (base.getD j defFnData) ?_ ht
  rw [List.getD_eq_getElem _ _ hj]
  exact List.getElem_mem _

/-- C6, counterexample: `parseJavaScript`'s class pass performs no
deduplication — on `"function A() {} class A {}"` the class entity `A`
shares its `(name, declaringLine)` pair with the function entity appended
before it. -/
theorem C6_counterexample :
    (parseCode cexClassDup "javascript").functions.map
      (fun f => (f.name, f.lineNumber, f.type)) =
      [(['A'], 1, "function"), (['A'], 1, "class")] ∧
    ((parseCode cexClassDup "javascript").functions.getD 1 defFnData).type = "class" ∧
    ((parseCode cexClassDup "javascript").functions.getD 0 defFnData).name =
      ((parseCode cexClassDup "javascript").functions.getD 1 defFnData).name ∧
    ((parseCode cexClassDup "javascript").functions.getD 0 defFnData).lineNumber =
      ((parseCode cexClassDup "javascript").functions.getD 1 defFnData).lineNumber := by
  refine ⟨by decide, by decide, by decide, by decide⟩

/-- C6, amended: in `parseC` (whose struct pass checks `alreadyAdded`) no
type-definition entity shares its `(name, declaringLine)` pair with any
earlier entity; the corresponding class passes of `parseJavaScript` (and
other dialects) have no such check and may produce duplicates. -/
theorem C6_amended (code : Str) (i j : Nat) (hij : i < j)
    (hj : j < (parseCode code "c").functions.length)
    (ht : ((parseCode code "c").functions.getD j defFnData).type = "class") :
    ¬(((parseCode code "c").functions.getD i defFnData).name =
        ((parseCode code "c").functions.getD j defFnData).name ∧
      ((parseCode code "c").functions.getD i defFnData).lineNumber =
        ((parseCode code "c").functions.getD j defFnData).lineNumber) := by
  by_cases h0 : jsTrim code = []
  · rw [parseCode_empty _ _ h0] at hj
    exact absurd hj (by simp)
  · rw [parseCode_c code h0] at hj ht ⊢
    have hbase : PairDedup
        (((execAll true cFuncRE (stripJsComments code)).map
          (entityOfMatch (stripJsComments code) "function" cParam)).filter
          fun e =>
            !(["if", "while", "for", "switch", "return"].map String.data).contains e.name) := by
      apply pairDedup_of_no_class
      intro f hf
      rcases List.mem_filter.mp hf with ⟨hf', _⟩
      rcases List.mem_map.mp hf' with ⟨m, _, rfl⟩
      simp [entityOfMatch]
    exact addDeduped_pairDedup _ _ hbase i j hij hj ht

/-- C6, amended, witness: in the C buffer with `int f` then `struct S`, the
struct entity does not duplicate the function entity. -/
theorem C6_amended_witness :
    ¬(((parseCode cexStructDedup "c").functions.getD 0 defFnData).name =
        ((parseCode cexStructDedup "c").functions.getD 1 defFnData).name ∧
      ((parseCode cexStructDedup "c").functions.getD 0 defFnData).lineNumber =
        ((parseCode cexStructDedup "c").functions.getD 1 defFnData).lineNumber) :=
  C6_amended cexStructDedup 0 1 (by decide) (by decide) (by decide)

/-- C7: for `function foo() {}` followed by `foo();` on line 3, the only
call site is the `foo` invocation on line 3 — in particular none on line 1,
the definition line. -/
theorem C7_false_positive_guard :
    (parseCode cexGuard "javascript").callSites.map
      (fun cs => (cs.calleeName, cs.lineNumber)) = [(['f', 'o', 'o'], 3)] := by
  decide

/-- C8: for every dialect, a line whose trimmed text starts with one of
that dialect's comment markers (`//`, `/*`, `*` for JavaScript/TypeScript,
Java, C, C++; `#`, `\"\"\"`, `'''` for Python; `#` for R and Ruby; `//`,
`/*` for Go, Rust, Swift; `//`, `/*`, `#` for PHP) never yields a call
site with that line's number. -/
theorem C8_comment_lines_no_call_sites (code : Str) (lang : String) (i : Nat)
    (_hi : i < (splitOn '\n' code).length)
    (hmk : ∃ m ∈ commentMarkers lang,
      startsWith m (jsTrim ((splitOn '\n' code).getD i [])) = true) :
    ∀ cs ∈ (parseCode code lang).callSites, cs.lineNumber ≠ i + 1 := by
  by_cases h0 : jsTrim code = []
  · rw [parseCode_empty _ _ h0]
    intro cs hcs
    exact absurd hcs (List.not_mem_nil _)
  · unfold commentMarkers at hmk
    by_cases h1 : lang = "javascript" ∨ lang = "typescript"
    · rw [if_pos h1] at hmk
      have hred : parseCode code lang = parseJavaScript code (splitOn '\n' code) := by
        rcases h1 with rfl | rfl
        · exact parseCode_js code h0
        · exact parseCode_ts code h0
      rw [hred]
      apply prov_comment_ne (parseJavaScript_inv code (splitOn '\n' code))
      rcases hmk with ⟨m, hm, hs⟩
      simp only [List.mem_cons, List.not_mem_nil, or_false] at hm
      rcases hm with rfl | rfl | rfl <;> (simp only [jsScanCfg]; rw [hs]; simp)
    · rw [if_neg h1] at hmk
      by_cases h2 : lang = "python"
      · subst h2
        rw [if_pos rfl] at hmk
        rw [parseCode_python code h0]
        apply prov_comment_ne (parsePython_inv code (splitOn '\n' code))
        rcases hmk with ⟨m, hm, hs⟩
        simp only [List.mem_cons, List.not_mem_nil, or_false] at hm
        rcases hm with rfl | rfl | rfl <;> (simp only [pyScanCfg]; rw [hs]; simp)
      · rw [if_neg h2] at hmk
        by_cases h3 : lang = "java"
        · subst h3
          rw [if_pos rfl] at hmk
          rw [parseCode_java code h0]
          apply prov_comment_ne (parseJava_inv code (splitOn '\n' code))
          rcases hmk with ⟨m, hm, hs⟩
          simp only [List.mem_cons, List.not_mem_nil, or_false] at hm
          rcases hm with rfl | rfl | rfl <;> (simp only [javaScanCfg]; rw [hs]; simp)
        · rw [if_neg h3] at hmk
          by_cases h4 : lang = "c"
          · subst h4
            rw [if_pos rfl] at hmk
            rw [parseCode_c code h0]
            apply prov_comment_ne (parseC_inv code (splitOn '\n' code))
            rcases hmk with ⟨m, hm, hs⟩
            simp only [List.mem_cons, List.not_mem_nil, or_false] at hm
            rcases hm with rfl | rfl | rfl <;> (simp only [cScanCfg]; rw [hs]; simp)
          · rw [if_neg h4] at hmk
            by_cases h5 : lang = "cpp"
            · subst h5
              rw [if_pos rfl] at hmk
              rw [parseCode_cpp code h0]
              apply prov_comment_ne (parseCpp_inv code (splitOn '\n' code))
              rcases hmk with ⟨m, hm, hs⟩
              simp only [List.mem_cons, List.not_mem_nil, or_false] at hm
              rcases hm with rfl | rfl | rfl <;> (simp only [cppScanCfg]; rw [hs]; simp)
            · rw [if_neg h5] at hmk
              by_cases h6 : lang = "r"
              · subst h6
                rw [if_pos rfl] at hmk
                rw [parseCode_r code h0]
                apply prov_comment_ne (parseR_inv code (splitOn '\n' code))
                rcases hmk with ⟨m, hm, hs⟩
                simp only [List.mem_cons, List.not_mem_nil, or_false] at hm
                rcases hm with rfl
                simp only [rScanCfg]
                rw [hs]
              · rw [if_neg h6] at hmk
                by_cases h7 : lang = "go"
                · subst h7
                  rw [if_pos rfl] at hmk
                  rw [parseCode_go code h0]
                  apply prov_comment_ne (parseGo_inv code (splitOn '\n' code))
                  rcases hmk with ⟨m, hm, hs⟩
                  simp only [List.mem_cons, List.not_mem_nil, or_false] at hm
                  rcases hm with rfl | rfl <;> (simp only [goScanCfg]; rw [hs]; simp)
                · rw [if_neg h7] at hmk
                  by_cases h8 : lang = "rust"
                  · subst h8
                    rw [if_pos rfl] at hmk
                    rw [parseCode_rust code h0]
                    apply prov_comment_ne (parseRust_inv code (splitOn '\n' code))
                    rcases hmk with ⟨m, hm, hs⟩
                    simp only [List.mem_cons, List.not_mem_nil, or_false] at hm
                    rcases hm with rfl | rfl <;> (simp only [rustScanCfg]; rw [hs]; simp)
                  · rw [if_neg h8] at hmk
                    by_cases h9 : lang = "php"
                    · subst h9
                      rw [if_pos rfl] at hmk
                      rw [parseCode_php code h0]
                      apply prov_comment_ne (parsePhp_inv code (splitOn '\n' code))
                      rcases hmk with ⟨m, hm, hs⟩
                      simp only [List.mem_cons, List.not_mem_nil, or_false] at hm
                      rcases hm with rfl | rfl | rfl <;>
                        (simp only [phpScanCfg]; rw [hs]; simp)
                    · rw [if_neg h9] at hmk
                      by_cases h10 : lang = "ruby"
                      · subst h10
                        rw [if_pos rfl] at hmk
                        rw [parseCode_ruby code h0]
                        apply prov_comment_ne (parseRuby_inv code (splitOn '\n' code))
                        rcases hmk with ⟨m, hm, hs⟩
                        simp only [List.mem_cons, List.not_mem_nil, or_false] at hm
                        rcases hm with rfl
                        simp only [rubyScanCfg]
                        rw [hs]
                      · rw [if_neg h10] at hmk
                        by_cases h11 : lang = "swift"
                        · subst h11
                          rw [if_pos rfl] at hmk
                          rw [parseCode_swift code h0]
                          apply prov_comment_ne (parseSwift_inv code (splitOn '\n' code))
                          rcases hmk with ⟨m, hm, hs⟩
                          simp only [List.mem_cons, List.not_mem_nil, or_false] at hm
                          rcases hm with rfl | rfl <;>
                            (simp only [swiftScanCfg]; rw [hs]; simp)
                        · rw [if_neg h11] at hmk
                          rcases hmk with ⟨m, hm, -⟩
                          exact absurd hm (List.not_mem_nil m)

/-- C8, witness: in `cexCommentLine` the comment-only line 2 (`// f(x)`)
yields no call site with line number 2. -/
theorem C8_comment_lines_witness :
    ((parseCode cexCommentLine "javascript").callSites.all
      fun cs => cs.lineNumber != 2) = true := by
  rw [List.all_eq_true]
  intro cs hcs
  have h := C8_comment_lines_no_call_sites cexCommentLine "javascript" 1 (by decide)
    ⟨"//", by decide, by decide⟩ cs hcs
  simpa using h

/-- C9: `parseCode` is a total function of the pair (buffer, language):
invoked twice on equal inputs it returns structurally identical results
(the call-site id counter and every other piece of state is local to one
invocation of the embedding). -/
theorem C9_deterministic (c c' : Str) (l l' : String) (hc : c = c') (hl : l = l') :
    parseCode c l = parseCode c' l' := by
  rw [hc, hl]

/-- C9, witness: re-parsing a syntactically invalid buffer gives the same
result. -/
theorem C9_deterministic_witness :
    parseCode "x((".data "javascript" = parseCode "x((".data "javascript" :=
  C9_deterministic _ _ _ _ rfl rfl

/-- C10: (a) Ruby's call regex `\b<name>\s*\(?` does not require a
parenthesis: every line that is not comment-only, does not start with
`def `/`class `/`module `, and contains a discovered entity's name as a
whole word yields a call site with that callee and line number; (b) in
every other dialect (every language tag except `"ruby"`) the callee name
on a call-site's line must pass the parenthesised test `\b<name>\s*\(`. -/
theorem C10_ruby_optional_paren :
    (∀ (code : Str) (j : Nat) (name : Str),
      j < (splitOn '\n' code).length →
      startsWith "#" (jsTrim ((splitOn '\n' code).getD j [])) = false →
      startsWith "def " (jsTrim ((splitOn '\n' code).getD j [])) = false →
      startsWith "class " (jsTrim ((splitOn '\n' code).getD j [])) = false →
      startsWith "module " (jsTrim ((splitOn '\n' code).getD j [])) = false →
      name ∈ (parseCode code "ruby").functions.map (·.name) →
      containsWholeWord name ((splitOn '\n' code).getD j []) = true →
      ∃ cs ∈ (parseCode code "ruby").callSites,
        cs.calleeName = name ∧ cs.lineNumber = j + 1) ∧
    (∀ (code : Str) (lang : String), lang ≠ "ruby" →
      ∀ cs ∈ (parseCode code lang).callSites,
        ∃ j, j < (splitOn '\n' code).length ∧ cs.lineNumber = j + 1 ∧
          callTest cs.calleeName true ((splitOn '\n' code).getD j []) = true) := by
  constructor
  · intro code j name hj hcomm hd1 hd2 hd3 hname hww
    by_cases h0 : jsTrim code = []
    · rw [parseCode_empty _ _ h0] at hname
      exact absurd hname (List.not_mem_nil _)
    · rw [parseCode_ruby code h0] at hname ⊢
      have hcomm' : rubyScanCfg.isCommentLine
          (jsTrim ((splitOn '\n' code).getD j [])) = false := hcomm
      have hdef' : rubyScanCfg.isDefLine
          (jsTrim ((splitOn '\n' code).getD j [])) = false := by
        simp only [rubyScanCfg]
        rw [hd1, hd2, hd3]
        rfl
      have hct : callTest name rubyScanCfg.reqParen
          ((splitOn '\n' code).getD j []) = true :=
        containsWholeWord_callTest hww
      exact scanCalls_hit hj hcomm' hdef' hct hname
  · intro code lang hnr cs hcs
    by_cases h0 : jsTrim code = []
    · rw [parseCode_empty _ _ h0] at hcs
      exact absurd hcs (List.not_mem_nil _)
    · by_cases h1 : lang = "javascript" ∨ lang = "typescript"
      · have hred : parseCode code lang = parseJavaScript code (splitOn '\n' code) := by
          rcases h1 with rfl | rfl
          · exact parseCode_js code h0
          · exact parseCode_ts code h0
        rw [hred] at hcs
        exact prov_paren (parseJavaScript_inv code (splitOn '\n' code)) rfl cs hcs
      · by_cases h2 : lang = "python"
        · subst h2
          rw [parseCode_python code h0] at hcs
          exact prov_paren (parsePython_inv code (splitOn '\n' code)) rfl cs hcs
        · by_cases h3 : lang = "java"
          · subst h3
            rw [parseCode_java code h0] at hcs
            exact prov_paren (parseJava_inv code (splitOn '\n' code)) rfl cs hcs
          · by_cases h4 : lang = "c"
            · subst h4
              rw [parseCode_c code h0] at hcs
              exact prov_paren (parseC_inv code (splitOn '\n' code)) rfl cs hcs
            · by_cases h5 : lang = "cpp"
              · subst h5
                rw [parseCode_cpp code h0] at hcs
                exact prov_paren (parseCpp_inv code (splitOn '\n' code)) rfl cs hcs
              · by_cases h6 : lang = "r"
                · subst h6
                  rw [parseCode_r code h0] at hcs
                  exact prov_paren (parseR_inv code (splitOn '\n' code)) rfl cs hcs
                · by_cases h7 : lang = "go"
                  · subst h7
                    rw [parseCode_go code h0] at hcs
                    exact prov_paren (parseGo_inv code (splitOn '\n' code)) rfl cs hcs
                  · by_cases h8 : lang = "rust"
                    · subst h8
                      rw [parseCode_rust code h0] at hcs
                      exact prov_paren (parseRust_inv code (splitOn '\n' code)) rfl cs hcs
                    · by_cases h9 : lang = "php"
                      · subst h9
                        rw [parseCode_php code h0] at hcs
                        exact prov_paren (parsePhp_inv code (splitOn '\n' code)) rfl cs hcs
                      · by_cases h11 : lang = "swift"
                        · subst h11
                          rw [parseCode_swift code h0] at hcs
                          exact prov_paren (parseSwift_inv code (splitOn '\n' code)) rfl cs hcs
                        · have hempty : parseCode code lang = ⟨[], [], []⟩ := by
                            unfold parseCode
                            rw [if_neg h0, if_neg h1, if_neg h2, if_neg h3, if_neg h4,
                              if_neg h5, if_neg h6, if_neg h7, if_neg h8, if_neg h9,
                              if_neg hnr, if_neg h11]
                          rw [hempty] at hcs
                          exact absurd hcs (List.not_mem_nil _)

/-- C10, witness: the bare `foo` on line 3 of the Ruby buffer produces a
call site, and the JavaScript call site of `cexGuard` passes the
parenthesised test on its line. -/
theorem C10_ruby_optional_paren_witness :
    (((parseCode cexRubyCall "ruby").callSites.any
      fun cs => cs.calleeName == ['f', 'o', 'o'] && cs.lineNumber == 3) = true) ∧
    (∃ j, j < (splitOn '\n' cexGuard).length ∧ (3 : Nat) = j + 1 ∧
      callTest ['f', 'o', 'o'] true ((splitOn '\n' cexGuard).getD j []) = true) := by
  constructor
  · rw [List.any_eq_true]
    rcases C10_ruby_optional_paren.1 cexRubyCall 2 ['f', 'o', 'o'] (by decide) (by decide)
      (by decide) (by decide) (by decide) (by decide) (by decide) with ⟨cs, hmem, h1, h2⟩
    exact ⟨cs, hmem, by rw [h1, h2]; simp⟩
  · have h := C10_ruby_optional_paren.2 cexGuard "javascript" (by decide)
      ⟨"call_0".data, "global".data, ['f', 'o', 'o'], 3, "foo();".data⟩ (by decide)
    simpa using h

end FnViz
